import Mathlib

/-!
Verification of the y2tubex media/subtitle acquisition pipeline.

Each JavaScript source function used by the claims is shallowly embedded as a
Lean definition; strings are modelled as `String`/`List Char`, machine numbers
as `Nat`/`Int`/`Rat`, asynchronous control flow as pure functions over explicit
outcome oracles, and the in-memory progress store as an association list.
-/

namespace JsStr

/-- Whitespace characters recognised by JavaScript `String.prototype.trim`
(ECMA-262 WhiteSpace and LineTerminator code points). -/
def isWs (c : Char) : Bool :=
  c.toNat = 0x09 || c.toNat = 0x0A || c.toNat = 0x0B || c.toNat = 0x0C ||
  c.toNat = 0x0D || c.toNat = 0x20 || c.toNat = 0xA0 || c.toNat = 0x1680 ||
  (0x2000 ≤ c.toNat && c.toNat ≤ 0x200A) || c.toNat = 0x2028 ||
  c.toNat = 0x2029 || c.toNat = 0x202F || c.toNat = 0x205F ||
  c.toNat = 0x3000 || c.toNat = 0xFEFF

/-- JavaScript `s.trim()` on the character list of `s`. -/
def trim (l : List Char) : List Char :=
  ((l.dropWhile isWs).reverse.dropWhile isWs).reverse

/-- JavaScript `s.trim()` at `String` level. -/
def trimS (s : String) : String := String.mk (trim s.data)

/-- JavaScript `s.split('\n')` on a character list. -/
def splitNl : List Char → List (List Char)
  | [] => [[]]
  | c :: r =>
    if c = '\n' then [] :: splitNl r
    else
      match splitNl r with
      | h :: t => (c :: h) :: t
      | [] => [[c]]

/-- JavaScript `s.padStart(n, c)`. -/
def padStart (s : String) (n : Nat) (c : Char) : String :=
  if n ≤ s.length then s else String.mk (List.replicate (n - s.length) c) ++ s

/-- ASCII case of JavaScript `s.toLowerCase()` (the format strings it is
applied to are ASCII). -/
def toLowerAscii (s : String) : String :=
  String.mk (s.data.map fun c =>
    if 65 ≤ c.toNat ∧ c.toNat ≤ 90 then Char.ofNat (c.toNat + 32) else c)

/-- `Array.prototype.join('\n')`. -/
def joinNl : List (List Char) → List Char
  | [] => []
  | [l] => l
  | l :: ls => l ++ '\n' :: joinNl ls

/-- Shape test for `\d{2}:\d{2}:\d{2}\.\d{3}` against exactly 12 characters. -/
def isTime12 : List Char → Bool
  | [a, b, c2, d, e, f, g, h, i, j, k, m] =>
    a.isDigit && b.isDigit && (c2 == ':') && d.isDigit && e.isDigit &&
    (f == ':') && g.isDigit && h.isDigit && (i == '.') &&
    j.isDigit && k.isDigit && m.isDigit
  | _ => false

/-- Anchored attempt of the timing regex
`\d{2}:\d{2}:\d{2}\.\d{3} --> \d{2}:\d{2}:\d{2}\.\d{3}` at the head of the
list, returning the two captured timestamps. -/
def timePairAt (s : List Char) : Option (List Char × List Char) :=
  let t1 := s.take 12
  let mid := (s.drop 12).take 5
  let t2 := (s.drop 17).take 12
  if isTime12 t1 ∧ mid = " --> ".data ∧ isTime12 t2 then some (t1, t2)
  else none

/-- Unanchored (leftmost) search of the timing regex, as JavaScript
`String.prototype.match` performs it. -/
def searchTimePair : List Char → Option (List Char × List Char)
  | [] => none
  | c :: r =>
    match timePairAt (c :: r) with
    | some p => some p
    | none => searchTimePair r

/-- Whether `line.match(/\d{2}:\d{2}:\d{2}\.\d{3} --> \d{2}:...\d{3}/)` is
truthy. -/
def hasTimePair (s : List Char) : Bool := (searchTimePair s).isSome

/-- JavaScript `s.replace(pat, rep)` with a global fixed-string pattern:
non-overlapping left-to-right replacement; scanning continues after the
consumed match and does not rescan the replacement.  The fuel argument
(initialised to the list length, which each step strictly exceeds the
consumption of) keeps the recursion structural. -/
def replAllGo (pat rep : List Char) : Nat → List Char → List Char
  | 0, s => s
  | _, [] => []
  | fuel + 1, c :: r =>
    if pat ≠ [] ∧ pat.isPrefixOf (c :: r) then
      rep ++ replAllGo pat rep fuel ((c :: r).drop pat.length)
    else c :: replAllGo pat rep fuel r

def replAll (pat rep s : List Char) : List Char :=
  replAllGo pat rep s.length s

/-- Helper of `stripTags`: split at the first `'>'`, returning the characters
before it and the remainder after it. -/
def splitAtGt : List Char → Option (List Char × List Char)
  | [] => none
  | c :: r =>
    if c = '>' then some ([], r)
    else
      match splitAtGt r with
      | some (ins, rest) => some (c :: ins, rest)
      | none => none

/-- JavaScript `s.replace(/<[^>]+>/g, '')` (fuel-structural): a `<` followed
by at least one non-`>` character and a `>` is removed together with the
enclosed text; otherwise scanning advances one character. -/
def stripTagsGo : Nat → List Char → List Char
  | 0, s => s
  | _, [] => []
  | fuel + 1, c :: r =>
    if c = '<' then
      match splitAtGt r with
      | some (ins, rest) =>
        if ins.isEmpty then c :: stripTagsGo fuel r
        else stripTagsGo fuel rest
      | none => c :: stripTagsGo fuel r
    else c :: stripTagsGo fuel r

def stripTags (s : List Char) : List Char := stripTagsGo s.length s

/-- JavaScript `s.replace(/position:\d+%/g, '')` (fuel-structural). -/
def stripPositionGo : Nat → List Char → List Char
  | 0, s => s
  | _, [] => []
  | fuel + 1, c :: r =>
    if "position:".data.isPrefixOf (c :: r) then
      let rest := (c :: r).drop 9
      let ds := rest.takeWhile Char.isDigit
      if ¬ ds.isEmpty ∧ (rest.drop ds.length).head? = some '%' then
        stripPositionGo fuel (rest.drop (ds.length + 1))
      else c :: stripPositionGo fuel r
    else c :: stripPositionGo fuel r

def stripPosition (s : List Char) : List Char := stripPositionGo s.length s

/-- JavaScript `s.replace(/(\d{2}:\d{2}:\d{2}\.\d{3})-->/g, '$1 -->')`
(fuel-structural): a 12-character timestamp immediately followed by `-->` is
re-emitted with a space inserted, scanning continuing after the match. -/
def fixArrowGo : Nat → List Char → List Char
  | 0, s => s
  | _, [] => []
  | fuel + 1, c :: r =>
    if isTime12 ((c :: r).take 12) ∧ ((c :: r).drop 12).take 3 = "-->".data then
      (c :: r).take 12 ++ ' ' :: '-' :: '-' :: '>' :: fixArrowGo fuel ((c :: r).drop 15)
    else c :: fixArrowGo fuel r

def fixArrow (s : List Char) : List Char := fixArrowGo s.length s

end JsStr

/-- A progress record as stored in the in-memory `downloadProgressMap`:
`{ progress, error, downloadUrl }` (further fields of some call sites are
irrelevant to the claims).  `progress` is a JavaScript number, modelled as a
rational; `error`/`downloadUrl` are `null` or a string. -/
structure ProgressRec where
  progress : Rat
  error : Option String := none
  downloadUrl : Option String := none
deriving DecidableEq, Repr

/-- The keyed store (a JavaScript `Map` keyed by download id), modelled as an
insertion-ordered association list. -/
abbrev Store := List (String × ProgressRec)

namespace Store

/-- JavaScript `map.get(k)` (`undefined` becomes `none`). -/
def get (st : Store) (k : String) : Option ProgressRec :=
  match st with
  | [] => none
  | p :: t => if p.1 = k then some p.2 else get t k

/-- JavaScript `map.set(k, v)`: overwrite in place, else append. -/
def set (st : Store) (k : String) (v : ProgressRec) : Store :=
  match st with
  | [] => [(k, v)]
  | p :: t => if p.1 = k then (k, v) :: t else p :: set t k v

/-- JavaScript `map.delete(k)`. -/
def del (st : Store) (k : String) : Store :=
  match st with
  | [] => []
  | p :: t => if p.1 = k then del t k else p :: del t k

end Store

/-!
### HOSTING_SETUP.md server: progress streaming endpoint and cancellation

Embeds `app.get('/api/download-progress/:downloadId')` (HOSTING_SETUP.md
1012–1051) and `app.post('/api/cancel-download/:downloadId')` (2204–2214),
together with `updateDownloadProgress` / `getDownloadProgress` /
`removeDownloadProgress`.  The per-connection behaviour is a transition system
over the record stored under the connection's download id.
-/
namespace Hosting

/-- State of one streaming connection: the store entry for its download id,
whether the HTTP response is still open, whether the `setInterval` timer is
still registered, and the records pushed so far. -/
structure SseState where
  store : Option ProgressRec
  streamOpen : Bool
  intervalOn : Bool
  pushed : List ProgressRec
deriving DecidableEq, Repr

/-- The endpoint's termination test `progress.progress === 100 ||
progress.error` (JavaScript truthiness: an empty error string is falsy). -/
def isTerminal (r : ProgressRec) : Bool :=
  r.progress = 100 ||
    (match r.error with
     | some m => m ≠ ""
     | none => false)

/-- `sendProgress` (HOSTING_SETUP.md 1022–1031): if a record is present, write
it to the stream; after writing a terminal record, remove the store entry and
end the response. -/
def sendProgress (s : SseState) : SseState :=
  match s.store with
  | none => s
  | some r =>
    if isTerminal r then
      { s with pushed := s.pushed ++ [r], store := none, streamOpen := false }
    else
      { s with pushed := s.pushed ++ [r] }

/-- One firing of the 500 ms interval (HOSTING_SETUP.md 1037–1044): if the
record is gone, clear the interval and end the response; otherwise
`sendProgress`. -/
def tick (s : SseState) : SseState :=
  if s.intervalOn then
    match s.store with
    | none => { s with intervalOn := false, streamOpen := false }
    | some _ => sendProgress s
  else s

/-- The `req.on('close')` handler (HOSTING_SETUP.md 1047–1050): clear the
interval and remove the store entry. -/
def clientClose (s : SseState) : SseState :=
  { s with intervalOn := false, store := none }

/-- The polling period passed to `setInterval` (HOSTING_SETUP.md 1044). -/
def pollIntervalMs : Nat := 500

end Hosting

/-!
### videoDownloader.js: `handleDownload`, synchronous phase

Embeds the YouTube branch of `handleDownload` (videoDownloader.js 97–152) up to
the point where either the request short-circuits on an existing artifact or
the asynchronous download task is spawned.  File-system facts (existence, size,
ffprobe validation) are oracle inputs observed at the moment the code reads
them.
-/
namespace VideoDl

inductive MediaType
  | video
  | audio
deriving DecidableEq, Repr

/-- Oracle for the file-system reads in the existing-file check. -/
structure FsOracle where
  fileExists : Bool
  fileSize : Nat
  fileValid : Bool
deriving DecidableEq, Repr

/-- Extension choice `type === 'video' ? 'mp4' : 'mp3'` (line 118). -/
def fileExtension (t : MediaType) : String :=
  match t with
  | .video => "mp4"
  | .audio => "mp3"

/-- The quality infix from the template `${quality ? `_${quality}` : ''}`
(line 120); JavaScript truthiness makes an empty string behave like absence. -/
def qualitySuffix (q : Option String) : String :=
  match q with
  | some s => if s = "" then "" else "_" ++ s
  | none => ""

/-- Canonical artifact filename (line 120). -/
def fileName (sanitizedTitle : String) (q : Option String) (t : MediaType) : String :=
  sanitizedTitle ++ qualitySuffix q ++ "." ++ fileExtension t

inductive DlResponse
  | fileReady (downloadUrl : String)
  | acceptedAsync (msg : String)
deriving DecidableEq, Repr

/-- Result of the synchronous phase: the map entry left under the request's
download id, the HTTP response, and whether the asynchronous acquisition task
(yt-dlp, then the ytdl-core fallback) was spawned. -/
structure PreResult where
  record : ProgressRec
  response : DlResponse
  strategiesInvoked : Bool
deriving DecidableEq, Repr

/-- Lines 94–152 of videoDownloader.js after availability and title
resolution: create the progress entry, run the existing-file check
(131–148), and either short-circuit or spawn the download task. -/
def handleDownloadPre (sanitizedTitle : String) (q : Option String)
    (t : MediaType) (fs : FsOracle) : PreResult :=
  let fn := fileName sanitizedTitle q t
  if fs.fileExists then
    if fs.fileSize = 0 then
      -- empty file: unlink and fall through to the download
      { record := { progress := 0 }
        response := .acceptedAsync "Đang tải, vui lòng chờ..."
        strategiesInvoked := true }
    else if fs.fileValid then
      { record := { progress := 100, downloadUrl := some ("/downloads/" ++ fn) }
        response := .fileReady ("/downloads/" ++ fn)
        strategiesInvoked := false }
    else
      -- invalid file: unlink and fall through to the download
      { record := { progress := 0 }
        response := .acceptedAsync "Đang tải, vui lòng chờ..."
        strategiesInvoked := true }
  else
    { record := { progress := 0 }
      response := .acceptedAsync "Đang tải, vui lòng chờ..."
      strategiesInvoked := true }

end VideoDl

/-!
### unnamed/part_000 (subtitleDownloader.js variant): `handleDownloadSubtitle`

Embeds the synchronous prefix of `handleDownloadSubtitle` (part_000 573–619)
and the duplicate-request logic around `activeSubtitleRequests` (610–616 and
the `finally` at 797).  Note that line 599 calls `fs.access(...).then(...)`
with `fs = require('fs')` (the callback API, not `fs.promises`): in Node this
throws a `TypeError` before any of the later lines run.
-/
namespace Part0

/-- JavaScript `a || b` for an optional string (empty string is falsy). -/
def jsOrStr (a : Option String) (b : String) : String :=
  match a with
  | some s => if s = "" then b else s
  | none => b

structure SubReq where
  url : String
  platform : String
  targetLanguage : Option String
  formatPreference : Option String
deriving DecidableEq, Repr

structure SubOracle where
  rateLimitOk : Bool
  defaultLanguage : String
deriving DecidableEq, Repr

inductive SubResp
  /-- the handler threw synchronously; the message names the error -/
  | thrown (msg : String)
  /-- HTTP 429 from the duplicate-request check -/
  | tooMany (msg : String)
  /-- HTTP 200 with a download id -/
  | accepted (downloadId : String)
deriving DecidableEq, Repr

/-- The duplicate-request check and registration (part_000 610–616): a key
already present is rejected with HTTP 429 and nothing is queued; otherwise the
key is registered. -/
def dedupRegister (active : List String) (key downloadId : String) :
    SubResp × List String :=
  if key ∈ active then
    (.tooMany "Yêu cầu tải phụ đề đang được xử lý. Vui lòng chờ!", active)
  else
    (.accepted downloadId, key :: active)

/-- The `finally` clause of the asynchronous block (part_000 797). -/
def releaseKey (active : List String) (key : String) : List String :=
  List.filter (fun k => ¬ k = key) active

/-- The request key `${url}:${selectedLanguage}:${selectedFormat}`
(part_000 611). -/
def requestKey (url lang fmt : String) : String :=
  url ++ ":" ++ lang ++ ":" ++ fmt

/-- Error message of Node's `fs.access(path)` called without a callback
(part_000 599 uses the callback `fs` API with `.then`). -/
def fsCallbackTypeError : String :=
  "TypeError: The callback argument must be of type function"

/-- The synchronous prefix of `handleDownloadSubtitle` (part_000 573–619),
returning the response and the updated `activeSubtitleRequests` key list.
Control flow: missing fields throw (577–580); the rate limiter may reject
(583); an unsupported format throws (591–593); then line 599 evaluates
`fs.access(subtitlesDir).then(...)` on the callback `fs` module, which throws a
`TypeError`, so the duplicate-request check at 610–616 is never reached. -/
def handleDownloadSubtitle (active : List String) (req : SubReq)
    (o : SubOracle) : SubResp × List String :=
  if req.url = "" ∨ req.platform = "" then
    (.thrown "Thiếu thông tin cần thiết (url, platform)", active)
  else if ¬ o.rateLimitOk then
    (.thrown "RATE_LIMITER_POINTS_EXCEEDED", active)
  else
    let fmt :=
      match req.formatPreference with
      | some s => if s = "" then "srt" else JsStr.toLowerAscii s
      | none => "srt"
    if ¬ (fmt = "srt" ∨ fmt = "vtt" ∨ fmt = "txt") then
      (.thrown "Định dạng không được hỗ trợ. Chỉ hỗ trợ: srt, vtt, txt.", active)
    else
      (.thrown fsCallbackTypeError, active)

end Part0

/-!
### videoDownloader.js: `selectAvailableFormat` (lines 26–70)

`getAvailableFormats` maps each raw format to `{itag, quality: qualityLabel ||
audioBitrate, container, type: mimeType.includes('video') ? 'video' :
'audio'}`.  The `quality` field is a resolution-label string when
`qualityLabel` is truthy, otherwise a number (`audioBitrate`), which can never
be strictly equal (`===`) to a label string; it is therefore modelled as
`Option String` holding the label.  `f.type.includes(type)` on the two exact
strings `'video'`/`'audio'` is equality.
-/
namespace VideoDl

structure FmtEntry where
  itag : Nat
  quality : Option String
  ftype : MediaType
deriving DecidableEq, Repr

/-- The `qualityMap` of `selectAvailableFormat` (lines 49–54), including the
`qualityMap[quality] || qualityMap['high']` fallback. -/
def qualityMap (q : String) : List String :=
  if q = "high" then ["1080p", "720p"]
  else if q = "medium" then ["720p", "480p"]
  else if q = "low" then ["360p", "240p"]
  else ["1080p", "720p"]

/-- The label loop of lines 56–59: the first label with a matching format
wins. -/
def findByLabel (formats : List FmtEntry) (t : MediaType) :
    List String → Option FmtEntry
  | [] => none
  | q :: qs =>
    match formats.find? (fun f => decide (f.quality = some q ∧ f.ftype = t)) with
    | some f => some f
    | none => findByLabel formats t qs

/-- `selectAvailableFormat` (videoDownloader.js 45–70). -/
def selectAvailableFormat (formats : List FmtEntry) (quality : String)
    (t : MediaType) : Option Nat :=
  if formats.isEmpty then none
  else
    match findByLabel formats t (qualityMap quality) with
    | some f => some f.itag
    | none =>
      match
        (if t = MediaType.video then
          formats.find? (fun f => decide (f.ftype = MediaType.video))
        else none) with
      | some f => some f.itag
      | none =>
        match formats.find? (fun f => decide (f.ftype = MediaType.audio)) with
        | some f => some f.itag
        | none =>
          -- `return formats[0]?.itag || null` (line 69)
          match formats.head? with
          | some f => if f.itag = 0 then none else some f.itag
          | none => none

end VideoDl

/-!
### server.js: format selection inside `downloadMediaWithYtdlCore` (383–439)
-/
namespace Server

structure SFormat where
  itag : Nat
  qualityLabel : Option String
  container : String
  mimeType : String
  hasVideo : Bool
  hasAudio : Bool
deriving DecidableEq, Repr

/-- The `qualityMap` of server.js 385–389 with the `|| qualityMap['high']`
fallback (line 390). -/
def qualityMap (q : String) : List String :=
  if q = "high" then ["1080p", "720p", "480p"]
  else if q = "medium" then ["720p", "480p", "360p"]
  else if q = "low" then ["480p", "360p", "240p"]
  else ["1080p", "720p", "480p"]

/-- Substring test used for `mimeType.includes('mp3')`. -/
def hasSub (pat : List Char) : List Char → Bool
  | [] => pat.isEmpty
  | l@(_ :: r) => if pat.isPrefixOf l then true else hasSub pat r

/-- The per-label search of server.js 393–412: for each label, first a format
with both video and audio, then any video format with that label. -/
def findVideoByLabel (formats : List SFormat) : List String → Option SFormat
  | [] => none
  | q :: qs =>
    match formats.find?
        (fun f => f.hasVideo && f.hasAudio && decide (f.qualityLabel = some q)) with
    | some f => some f
    | none =>
      match formats.find?
          (fun f => f.hasVideo && decide (f.qualityLabel = some q)) with
      | some f => some f
      | none => findVideoByLabel formats qs

/-- Video-format selection (server.js 383–417): label search, then
`formats.find(f => f.hasVideo)`; `null` if no video-capable format exists. -/
def selectVideoFormat (formats : List SFormat) (quality : String) :
    Option SFormat :=
  match findVideoByLabel formats (qualityMap quality) with
  | some f => some f
  | none => formats.find? (fun f => f.hasVideo)

/-- The audio predicate of server.js 420–425: audio-only with an mp3 container
or an mp3 mime type. -/
def isMp3Audio (f : SFormat) : Bool :=
  f.hasAudio && !f.hasVideo &&
    (decide (f.container = "mp3") || hasSub "mp3".data f.mimeType.data)

/-- Audio-format selection (server.js 419–435): prefer an audio-only mp3
format, then any audio-only format. -/
def selectAudioFormat (formats : List SFormat) : Option SFormat :=
  match formats.find? isMp3Audio with
  | some f => some f
  | none => formats.find? (fun f => f.hasAudio && !f.hasVideo)

end Server

/-!
### utils.js `fetchWithRetry` (24–35) and subtitleDownloader.js
`downloadSubtitleWithRetry` (613–726)

`downloadSubtitleWithRetry` runs the whole chain of three acquisition methods
(ytdl-core captions, yt-dlp, youtube-caption-extractor) inside one `try`, and
the `for` loop retries that chain up to `retries = 3` times with delay
`min(1000 * 2**attempt, 10000)` between failed passes.  Each method, per pass,
either returns nonempty content (the function returns), completes without
content (control falls through to the next method), or throws (control jumps
to the `catch`, skipping the remaining methods of the pass).  Those three
behaviours are the oracle outcomes below.
-/
namespace SubDl

inductive SOutcome
  | success
  | notAvail
  | err
deriving DecidableEq, Repr, Fintype

/-- Outcome oracle: `o attempt method` is how the given method behaves during
the given pass. -/
abbrev ChainOracle := Fin 3 → Fin 3 → SOutcome

/-- Backoff before the next pass (subtitleDownloader.js 723):
`Math.min(1000 * Math.pow(2, attempt), 10000)`. -/
def backoffDelay (attempt : Nat) : Nat := min (1000 * 2 ^ attempt) 10000

/-- One pass over the three methods (the body of the `try`, lines 615–716):
invoked methods in order, and whether the pass returned content. -/
def chainPass (f : Fin 3 → SOutcome) : List (Fin 3) × Bool :=
  match f 0 with
  | .success => ([0], true)
  | .err => ([0], false)
  | .notAvail =>
    match f 1 with
    | .success => ([0, 1], true)
    | .err => ([0, 1], false)
    | .notAvail =>
      match f 2 with
      | .success => ([0, 1, 2], true)
      | .notAvail => ([0, 1, 2], false)
      | .err => ([0, 1, 2], false)

structure RetryRun where
  /-- `(attempt, method)` pairs in invocation order -/
  invocations : List (Fin 3 × Fin 3)
  /-- backoff delays slept between passes, in ms -/
  delays : List Nat
  /-- whether the function returned subtitle content -/
  success : Bool
deriving DecidableEq, Repr

/-- `downloadSubtitleWithRetry` (subtitleDownloader.js 613–726) as a trace
function: `retries = 3` passes at most, with backoff between failed passes. -/
def downloadSubtitleWithRetry (o : ChainOracle) : RetryRun :=
  let p0 := chainPass (o 0)
  let inv0 := p0.1.map (fun m => ((0 : Fin 3), m))
  if p0.2 then ⟨inv0, [], true⟩
  else
    let p1 := chainPass (o 1)
    let inv1 := p1.1.map (fun m => ((1 : Fin 3), m))
    if p1.2 then ⟨inv0 ++ inv1, [backoffDelay 0], true⟩
    else
      let p2 := chainPass (o 2)
      let inv2 := p2.1.map (fun m => ((2 : Fin 3), m))
      ⟨inv0 ++ inv1 ++ inv2, [backoffDelay 0, backoffDelay 1], p2.2⟩

end SubDl

namespace Utils

/-- `fetchWithRetry` (utils.js 24–35): attempts `retries + 1` requests; on
failure at attempt `i < retries` it sleeps the FIXED `delay` and retries; the
failure of attempt `retries` is rethrown.  `ok i` tells whether attempt `i`
succeeds.  Returns (number of attempts made, delays slept, success). -/
def fetchGo (delay : Nat) (ok : Nat → Bool) : Nat → Nat → Nat × List Nat × Bool
  | _, 0 => (0, [], false)
  | i, fuel + 1 =>
    if ok i then (1, [], true)
    else if fuel = 0 then (1, [], false)
    else
      let r := fetchGo delay ok (i + 1) fuel
      (r.1 + 1, delay :: r.2.1, r.2.2)

/-- `fetchWithRetry(url, options, retries, delay)` with the call-site values
`retries = 3, delay = 2000` used by `downloadSubtitleWithRetry`. -/
def fetchWithRetry (retries delay : Nat) (ok : Nat → Bool) :
    Nat × List Nat × Bool :=
  fetchGo delay ok 0 (retries + 1)

end Utils

/-!
### videoDownloader.js: the asynchronous download task (154–353)

The task's writes to `downloadProgressMap` are reproduced as a list of
`ProgressRec`, driven by an oracle for the yt-dlp subprocess, the ytdl-core
fallback streams, ffmpeg, and the final file checks.
-/
namespace VideoDl

/-- Value of one digit run. -/
def digitsVal (l : List Char) : Nat :=
  l.foldl (fun a c => a * 10 + (c.toNat - 48)) 0

/-- The regex `/(\d+\.\d+)%/` applied at the head of the list, returning
`parseFloat` of the captured group. -/
def matchPercentAt (l : List Char) : Option Rat :=
  let d1 := l.takeWhile Char.isDigit
  if d1.isEmpty then none
  else
    match l.drop d1.length with
    | '.' :: r2 =>
      let d2 := r2.takeWhile Char.isDigit
      if d2.isEmpty then none
      else
        match r2.drop d2.length with
        | '%' :: _ =>
          some ((digitsVal d1 : Rat) + (digitsVal d2 : Rat) / ((10 : Rat) ^ d2.length))
        | _ => none
    | _ => none

/-- Unanchored (leftmost) search for `/(\d+\.\d+)%/`, as
`data.toString().match(...)` does (line 175). -/
def searchPercent : List Char → Option Rat
  | [] => none
  | c :: r =>
    match matchPercentAt (c :: r) with
    | some v => some v
    | none => searchPercent r

/-- Progress values written by the yt-dlp stdout handler (lines 174–180): one
write per chunk whose text matches the percent regex, with the raw parsed
value. -/
def ytDlpWrites (chunks : List String) : List Rat :=
  chunks.filterMap (fun c => searchPercent c.data)

/-- Video-phase fallback write (line 217):
`Math.round((downloaded / total) * 100 * 0.5)`. -/
def videoPhaseProgress (downloaded total : Nat) : Rat :=
  ((round ((downloaded : Rat) / (total : Rat) * 100 * (1/2)) : Int) : Rat)

/-- Audio-phase fallback write (line 239):
`50 + Math.round((downloaded / total) * 100 * 0.5)`. -/
def audioPhaseProgress (downloaded total : Nat) : Rat :=
  50 + ((round ((downloaded : Rat) / (total : Rat) * 100 * (1/2)) : Int) : Rat)

/-- Audio-only fallback write (line 284):
`Math.round((downloaded / total) * 100)`. -/
def audioOnlyProgress (downloaded total : Nat) : Rat :=
  ((round ((downloaded : Rat) / (total : Rat) * 100) : Int) : Rat)

/-- The fixed record written by the fallback `catch` (lines 316–320). -/
def fallbackErrRec : ProgressRec :=
  { progress := 0, error := some "Không thể tải video/âm thanh từ bất kỳ nguồn nào." }

structure VideoOracle where
  /-- stdout chunks of the yt-dlp child process -/
  ytChunks : List String
  /-- yt-dlp exit code; `0` is success -/
  ytExitCode : Nat
  /-- result of `selectAvailableFormat` in the fallback -/
  selectItag : Option Nat
  mtype : MediaType
  /-- (downloaded, total) events of the fallback video stream -/
  vProg : List (Nat × Nat)
  vFinalBytes : Nat
  vStreamErr : Option String
  /-- (downloaded, total) events of the fallback audio stream -/
  aProg : List (Nat × Nat)
  aFinalBytes : Nat
  aStreamErr : Option String
  /-- ffmpeg merge / conversion error -/
  ffmpegErr : Option String
  /-- an unexpected throw reaching the outer catch (lines 349–352) -/
  postThrow : Option String
  fileExistsAfter : Bool
  fileSizeAfter : Nat
  fileValidAfter : Bool
deriving Repr

/-- The final checks of lines 323–348, or the outer catch of 349–352 when an
unexpected error is thrown there. -/
def postChecks (o : VideoOracle) (fn : String) : List ProgressRec :=
  match o.postThrow with
  | some m =>
    [{ progress := 0,
       error := some (if m = "" then "Lỗi server khi tải nội dung." else m) }]
  | none =>
    if ¬ o.fileExistsAfter then
      [{ progress := 0, error := some "Tải xuống thất bại. File không được tạo." }]
    else if o.fileSizeAfter = 0 then
      [{ progress := 0, error := some "File tải về rỗng. Vui lòng thử lại." }]
    else if ¬ o.fileValidAfter then
      [{ progress := 0, error := some "File không hợp lệ. Vui lòng thử lại." }]
    else
      [{ progress := 100, downloadUrl := some ("/downloads/" ++ fn) }]

/-- The asynchronous task of `handleDownload` (videoDownloader.js 154–353) as
the ordered list of its `downloadProgressMap.set` writes. -/
def videoTask (o : VideoOracle) (fn : String) : List ProgressRec :=
  let ytWrites := (ytDlpWrites o.ytChunks).map
    (fun p => ({ progress := p } : ProgressRec))
  if o.ytExitCode = 0 then
    ytWrites ++ postChecks o fn
  else
    match o.selectItag with
    | none => ytWrites ++ [fallbackErrRec]
    | some _ =>
      match o.mtype with
      | .video =>
        let vW := o.vProg.map
          (fun dt => ({ progress := videoPhaseProgress dt.1 dt.2 } : ProgressRec))
        if o.vStreamErr.isSome then ytWrites ++ vW ++ [fallbackErrRec]
        else if o.vFinalBytes = 0 then ytWrites ++ vW ++ [fallbackErrRec]
        else
          let aW := o.aProg.map
            (fun dt => ({ progress := audioPhaseProgress dt.1 dt.2 } : ProgressRec))
          if o.aStreamErr.isSome then ytWrites ++ vW ++ aW ++ [fallbackErrRec]
          else if o.aFinalBytes = 0 then ytWrites ++ vW ++ aW ++ [fallbackErrRec]
          else if o.ffmpegErr.isSome then ytWrites ++ vW ++ aW ++ [fallbackErrRec]
          else ytWrites ++ vW ++ aW ++ postChecks o fn
      | .audio =>
        let aW := o.aProg.map
          (fun dt => ({ progress := audioOnlyProgress dt.1 dt.2 } : ProgressRec))
        if o.aStreamErr.isSome then ytWrites ++ aW ++ [fallbackErrRec]
        else if o.aFinalBytes = 0 then ytWrites ++ aW ++ [fallbackErrRec]
        else if o.ffmpegErr.isSome then ytWrites ++ aW ++ [fallbackErrRec]
        else ytWrites ++ aW ++ postChecks o fn

/-- Fixture: yt-dlp prints `11.5%` and then `10.0%` on stdout (as it does
when it downloads the video stream and then restarts percentages for the
audio stream), exits 0, and the downloaded file passes all checks. -/
def regressFixture : VideoOracle :=
  ⟨["[download]  11.5% of ~10MiB", "[download]  10.0% of ~10MiB"], 0, none,
   MediaType.video, [], 0, none, [], 0, none, none, none, true, 1, true⟩

end VideoDl

/-!
### unnamed/part_000: the asynchronous subtitle task (622–799)

The task writes `{progress: 30}`, `{progress: 70}`, and either a completion or
an error record.  The catch-all at 783–798 maps every thrown error to a
user-facing message (with a non-empty default).  Two slips in the block are
reproduced faithfully: method 2 references the undeclared `tempDir` (695), so
it always fails with a `ReferenceError` into its local catch, and the
file-name construction on the success path references the undeclared
`videoTitle` (753), so the success path itself ends in the catch-all with
`"videoTitle is not defined"`.
-/
namespace Part0

/-- The catch-all's final fallback `error.message || 'Lỗi server khi tải phụ
đề. Vui lòng thử lại sau!'` (part_000 793). -/
def errMessage (raw : String) : String :=
  if raw = "" then "Lỗi server khi tải phụ đề. Vui lòng thử lại sau!" else raw

structure TaskOracle where
  platformIsYoutube : Bool
  videoIdOk : Bool
  /-- `some reason` when `checkVideoAvailability` reports unavailability -/
  availErr : Option String
  anyLanguages : Bool
  langAvailable : Bool
  selectedLanguage : String
  availableLangsJoined : String
  /-- whether any of the four download methods produced content -/
  contentFound : Bool
  /-- the last error captured in `downloadError`, if any method threw -/
  downloadErr : Option String
  selectedFormat : String
  convertOk : Bool
deriving Repr

/-- The asynchronous block of `handleDownloadSubtitle` (part_000 622–799) as
the ordered list of its `downloadProgressMap.set` writes. -/
def subTask (o : TaskOracle) : List ProgressRec :=
  if ¬ o.platformIsYoutube then
    [⟨0, some (errMessage "Hiện tại chỉ hỗ trợ nền tảng YouTube."), none⟩]
  else if ¬ o.videoIdOk then
    [⟨0, some (errMessage "URL YouTube không hợp lệ"), none⟩]
  else
    match o.availErr with
    | some r => [⟨0, some (errMessage r), none⟩]
    | none =>
      if ¬ o.anyLanguages then
        [⟨0, some (errMessage "Video không có phụ đề nào khả dụng."), none⟩]
      else if ¬ o.langAvailable then
        [⟨0, some (errMessage ("Không tìm thấy phụ đề cho ngôn ngữ " ++
          o.selectedLanguage ++ ". Các ngôn ngữ khả dụng: " ++
          o.availableLangsJoined)), none⟩]
      else
        let w30 : ProgressRec := ⟨30, none, none⟩
        if ¬ o.contentFound then
          let msg :=
            match o.downloadErr with
            | some e => "Không thể tải phụ đề cho ngôn ngữ " ++
                o.selectedLanguage ++ ". Lỗi: " ++ e
            | none => "Không thể tải phụ đề cho ngôn ngữ " ++
                o.selectedLanguage ++ ". Vui lòng thử ngôn ngữ khác."
          [w30, ⟨0, some (errMessage msg), none⟩]
        else
          let w70 : ProgressRec := ⟨70, none, none⟩
          if ¬ o.convertOk then
            [w30, w70, ⟨0, some (errMessage ("Không thể chuyển đổi phụ đề sang định dạng " ++
              o.selectedFormat ++ ". Vui lòng thử định dạng khác.")), none⟩]
          else
            -- line 753 reads the undeclared `videoTitle`: ReferenceError
            [w30, w70, ⟨0, some (errMessage "videoTitle is not defined"), none⟩]

end Part0

/-!
### subtitleDownloader.js: `cleanSubtitleContent` (33–118)

The cleanup pipeline: strip markup tags, decode the HTML entities, strip the
zero-width/bidi marks, strip C0/C1 control characters (note that this range
`[\x00-\x1F\x7F-\x9F]` contains `\n` and `\r`, so the line structure of the
content is destroyed here), drop styling directives, then keep only lines
that are timing lines or contain at least one character of
`[\p{L}\p{N}\p{P}\p{Z}\p{S}\p{M}]`.
-/
namespace SubDl

/-- The C0/C1 class of subtitleDownloader.js line 56:
`/[\x00-\x1F\x7F-\x9F]/`. -/
def isC0C1 (c : Char) : Bool :=
  decide (c.toNat ≤ 0x1F ∨ (0x7F ≤ c.toNat ∧ c.toNat ≤ 0x9F))

/-- Test for one character against `[\p{L}\p{N}\p{P}\p{Z}\p{S}\p{M}]`
(subtitleDownloader.js line 78).  The six categories jointly cover every
Unicode general category except C (control, format, surrogate, private-use,
unassigned); the embedding decides exactly the C0/C1 controls and the common
format-control code points as non-members and treats other code points
appearing in this development as members. -/
def isValidCueChar (c : Char) : Bool :=
  decide (¬ (c.toNat ≤ 0x1F ∨ (0x7F ≤ c.toNat ∧ c.toNat ≤ 0x9F) ∨
    c.toNat = 0xAD ∨ (0x200B ≤ c.toNat ∧ c.toNat ≤ 0x200F) ∨
    (0x202A ≤ c.toNat ∧ c.toNat ≤ 0x202E) ∨
    (0x2060 ≤ c.toNat ∧ c.toNat ≤ 0x2064) ∨ c.toNat = 0xFEFF))

/-- Lines 41–63: tag stripping, entity decoding, zero-width/bidi removal,
C0/C1 removal, and styling-directive removal, in source order. -/
def cleanupReplacements (s : List Char) : List Char :=
  let s1 := JsStr.stripTags s
  let s2 := JsStr.replAll "&nbsp;".data " ".data s1
  let s3 := JsStr.replAll "&amp;".data "&".data s2
  let s4 := JsStr.replAll "&lt;".data "<".data s3
  let s5 := JsStr.replAll "&gt;".data ">".data s4
  let s6 := JsStr.replAll "&quot;".data "\"".data s5
  let s7 := JsStr.replAll "&#39;".data [Char.ofNat 39] s6
  let s8 := JsStr.replAll [Char.ofNat 0x200B] [] s7
  let s9 := JsStr.replAll [Char.ofNat 0x200C] [] s8
  let s10 := JsStr.replAll [Char.ofNat 0x200D] [] s9
  let s11 := JsStr.replAll [Char.ofNat 0x200E] [] s10
  let s12 := JsStr.replAll [Char.ofNat 0x200F] [] s11
  let s13 := s12.filter (fun c => ! isC0C1 c)
  let s14 := JsStr.replAll "align:start".data [] s13
  let s15 := JsStr.stripPosition s14
  let s16 := JsStr.replAll "<c>".data [] s15
  let s17 := JsStr.replAll "</c>".data [] s16
  s17

/-- The line filter of lines 67–79: keep a line iff its trim is nonempty and
it is a timing line or contains a valid cue character. -/
def validLine (line : List Char) : Bool :=
  let t := JsStr.trim line
  if t.isEmpty then false
  else if JsStr.hasTimePair t then true
  else t.any isValidCueChar

/-- `cleanSubtitleContent` (subtitleDownloader.js 33–118). -/
def cleanSubtitleContent (content : String) : Option String :=
  if content = "" ∨ JsStr.trim content.data = [] then none
  else
    let cleaned := cleanupReplacements content.data
    let ls := JsStr.splitNl cleaned
    let valid := ls.filter validLine
    let joined := JsStr.trim (JsStr.joinNl valid)
    if joined.isEmpty then none
    else if ¬ (valid.any (fun l => ! JsStr.hasTimePair l && l.any isValidCueChar)) then
      none
    else
      let withHeader :=
        if "WEBVTT".data.isPrefixOf joined then joined
        else "WEBVTT\n\n".data ++ joined
      some (String.mk (JsStr.fixArrow (JsStr.fixArrow withHeader)))

end SubDl

/-- Terminal progress record in the sense of §7 of the specification: either
completed with a result location, or an error with a non-empty user-facing
message. -/
def isTerminalRec (r : ProgressRec) : Prop :=
  (r.progress = 100 ∧ r.downloadUrl.isSome) ∨ (∃ m, r.error = some m ∧ m ≠ "")


/-- Subtitle entry consumed by the server serializers (server.js 592-605):
`startMs` and `durationMs` in milliseconds and a `text`. -/
structure Cue where
  startMs : Nat
  durationMs : Nat
  text : String
deriving DecidableEq

/-- Canonical parsed cue (section 3 of the specification): start and end
offsets in milliseconds and a text. -/
structure PCue where
  startMs : Nat
  endMs : Nat
  text : String
deriving DecidableEq

namespace Server

/-- `pad` (server.js 654-656): `num.toString().padStart(size, 0)` with the
zero fill character. -/
def pad (num : Nat) (size : Nat) : String :=
  JsStr.padStart (Nat.repr num) size (Char.ofNat 48)

/-- `msToTime` (server.js 633-641), `totalSeconds` substituted. -/
def msToTime (ms : Nat) : String :=
  pad (ms / 1000 / 3600) 2 ++ ":" ++ pad (ms / 1000 % 3600 / 60) 2 ++ ":" ++
    pad (ms / 1000 % 60) 2 ++ "." ++ pad (ms % 1000) 3

/-- JavaScript `text.lastIndexOf(sp, bound)` for the space character: the
largest index at most `bound` holding a space, `none` for the -1 case. -/
def lastSpaceLe (t : List Char) (bound : Nat) : Option Nat :=
  ((List.range (bound + 1)).filter (fun i => t.getD i (Char.ofNat 0) == ' ')).getLast?

/-- `truncateSubtitleText` (server.js 581-589); the default `maxLength = 40`
is passed explicitly by the callers. -/
def truncateSubtitleText (text : String) (maxLength : Nat) : String :=
  if text = "" then ""
  else if (JsStr.trim text.data).length ≤ maxLength then
    String.mk (JsStr.trim text.data)
  else
    match lastSpaceLe (JsStr.trim text.data) maxLength with
    | some i => String.mk (JsStr.trim ((JsStr.trim text.data).take i))
    | none => String.mk (JsStr.trim ((JsStr.trim text.data).take maxLength))

/-- Start timestamp of one entry (server.js 596): a truthy `startMs` is
formatted with `msToTime`; `startMs = 0` is falsy and the fallback
`msToTime(sub.start * 1000)` operates on the absent `start` field, so every
arithmetic step yields `NaN` and the formatted value is the `NaN` string. -/
def cueStartStr (c : Cue) : String :=
  if c.startMs ≠ 0 then msToTime c.startMs else "NaN:NaN:NaN.NaN"

/-- End timestamp of one entry (server.js 597), same falsy branch. -/
def cueEndStr (c : Cue) : String :=
  if c.startMs ≠ 0 then msToTime (c.startMs + c.durationMs) else "NaN:NaN:NaN.NaN"

/-- One loop iteration of `arrayToVtt` (server.js 598-602): an entry whose
text is empty or blank contributes nothing. -/
def cueBlock (c : Cue) : List Char :=
  if c.text ≠ "" ∧ JsStr.trim c.text.data ≠ [] then
    (cueStartStr c).data ++ " --> ".data ++ (cueEndStr c).data ++
      '\n' :: (truncateSubtitleText c.text 40).data ++ "\n\n".data
  else []

/-- `arrayToVtt` (server.js 592-605): WEBVTT header, one block per entry
with non-blank text, final trim, `null` when only the header remains. -/
def arrayToVtt (subtitles : List Cue) : Option String :=
  if subtitles = [] then none
  else
    let vtt := subtitles.foldl (fun acc sub => acc ++ cueBlock sub) "WEBVTT\n\n".data
    if JsStr.trim vtt = "WEBVTT".data then none
    else some (String.mk (JsStr.trim vtt))

end Server

namespace Norm

/-- Numeric value of an ASCII digit. -/
def d10 (c : Char) : Nat := c.toNat - 48

/-- Modelled from the spec: millisecond value of a twelve-character
`HH:MM:SS.mmm` timestamp (section 4.1, raw shape (a)); `none` on any other
shape.  The repository has no VTT parser of its own, so the parse direction
of the round-trip follows the words of the specification. -/
def timeVal : List Char → Option Nat
  | [a, b, c, d, e, f, g, h, i, j, k, m] =>
    if a.isDigit ∧ b.isDigit ∧ c = ':' ∧ d.isDigit ∧ e.isDigit ∧ f = ':' ∧
        g.isDigit ∧ h.isDigit ∧ i = '.' ∧ j.isDigit ∧ k.isDigit ∧ m.isDigit then
      some ((10 * d10 a + d10 b) * 3600000 + (10 * d10 d + d10 e) * 60000 +
        (10 * d10 g + d10 h) * 1000 + (100 * d10 j + 10 * d10 k + d10 m))
    else none
  | _ => none

/-- Modelled from the spec: recognise a `HH:MM:SS.mmm --> HH:MM:SS.mmm`
timing line (section 4.1, raw shape (a)), tolerating surrounding
whitespace. -/
def parseTimingLine (l : List Char) : Option (Nat × Nat) :=
  if (JsStr.trim l).length = 29 ∧
      ((JsStr.trim l).drop 12).take 5 = " --> ".data then
    match timeVal ((JsStr.trim l).take 12), timeVal ((JsStr.trim l).drop 17) with
    | some a, some b => some (a, b)
    | _, _ => none
  else none

/-- Modelled from the spec: the zero-width and bidi control characters of
the uniform cleanup (section 4.1) — the zero-width and mark code points
U+200B..U+200F, the bidi embedding controls U+202A..U+202E, and the
zero-width no-break space U+FEFF. -/
def isZwBidi (c : Char) : Bool :=
  decide ((0x200B ≤ c.toNat ∧ c.toNat ≤ 0x200F) ∨
    (0x202A ≤ c.toNat ∧ c.toNat ≤ 0x202E) ∨ c.toNat = 0xFEFF)

/-- Modelled from the spec: the uniform text cleanup of section 4.1, applied
to every cue regardless of source and in the order the spec lists — strip
markup tags, decode the five standard HTML entities, strip zero-width and
bidi control characters, strip C0/C1 control characters, collapse
cue-internal styling directives (alignment/position hints), trim. -/
def cleanupText (s : List Char) : List Char :=
  let s1 := JsStr.stripTags s
  let s2 := JsStr.replAll "&amp;".data "&".data s1
  let s3 := JsStr.replAll "&lt;".data "<".data s2
  let s4 := JsStr.replAll "&gt;".data ">".data s3
  let s5 := JsStr.replAll "&quot;".data "\"".data s4
  let s6 := JsStr.replAll "&#39;".data [Char.ofNat 39] s5
  let s7 := s6.filter (fun c => ! isZwBidi c)
  let s8 := s7.filter (fun c => ! SubDl.isC0C1 c)
  let s9 := JsStr.replAll "align:start".data [] s8
  let s10 := JsStr.stripPosition s9
  JsStr.trim s10

/-- Modelled from the spec: the cue scanner of section 4.1, raw shape (a) —
a timing line followed by one or more text lines until a blank line; lines
before a timing line (header, blanks, stray text) are skipped; the collected
text goes through the uniform cleanup of section 4.1, and the cue is
retained only if the cleaned text still contains at least one valid cue
character (section 4.1 retention rule; section 3: empty cues are dropped,
not emitted).  The fuel argument (initialised to the number of lines, which
bounds every recursive call) keeps the recursion structural. -/
def parseLinesGo : Nat → List (List Char) → List PCue
  | 0, _ => []
  | _ + 1, [] => []
  | fuel + 1, l :: rest =>
    match parseTimingLine l with
    | none => parseLinesGo fuel rest
    | some p =>
      let textLines := rest.takeWhile (fun m => ! (JsStr.trim m).isEmpty)
      let after := (rest.dropWhile (fun m => ! (JsStr.trim m).isEmpty)).drop 1
      let text := cleanupText (JsStr.joinNl textLines)
      if text.any SubDl.isValidCueChar then
        ⟨p.1, p.2, String.mk text⟩ :: parseLinesGo fuel after
      else parseLinesGo fuel after

/-- Modelled from the spec: `parse` for VTT input (section 4.1). -/
def parseVtt (s : String) : List PCue :=
  parseLinesGo (JsStr.splitNl s.data).length (JsStr.splitNl s.data)

end Norm

/-- Hypotheses of the amended round-trip property: the entry has a truthy
start, its times fit the two-digit hour field, and its text is non-empty,
trimmed, newline-free, within the 40-character truncation limit, and in
canonical cleaned form (a fixed point of the section 4.1 cleanup that
contains a valid cue character) — the invariant the specification gives the
canonical CueList whose serialization the round-trip speaks about. -/
def goodCue (c : Cue) : Prop :=
  c.startMs ≠ 0 ∧ c.startMs + c.durationMs < 360000000 ∧ c.text ≠ "" ∧
  JsStr.trim c.text.data = c.text.data ∧ c.text.data.length ≤ 40 ∧
  (∀ ch ∈ c.text.data, ¬ ch = '\n') ∧
  Norm.cleanupText c.text.data = c.text.data ∧
  c.text.data.any SubDl.isValidCueChar = true

/-- Parsed image of a serializer entry. -/
def toPCue (c : Cue) : PCue := ⟨c.startMs, c.startMs + c.durationMs, c.text⟩

instance (c : Cue) : Decidable (goodCue c) := by
  unfold goodCue
  exact inferInstance

-- ### end of definitions / beginning of claim theorems

namespace JsStr

theorem dropWhile_eq_self_of_head {p : Char → Bool} :
    ∀ {l : List Char}, (∀ c ∈ l.head?, p c = false) → l.dropWhile p = l := by
  intro l h
  cases l with
  | nil => rfl
  | cons a t =>
    have : p a = false := h a rfl
    simp [List.dropWhile, this]

theorem trim_eq_self {l : List Char}
    (h1 : ∀ c ∈ l.head?, isWs c = false)
    (h2 : ∀ c ∈ l.getLast?, isWs c = false) : trim l = l := by
  unfold trim
  rw [dropWhile_eq_self_of_head h1]
  rw [dropWhile_eq_self_of_head (by
    intro c hc
    apply h2
    rwa [List.head?_reverse] at hc)]
  exact List.reverse_reverse l

theorem dropWhile_all_append {p : Char → Bool} {a b : List Char}
    (ha : ∀ c ∈ a, p c = true) :
    (a ++ b).dropWhile p = b.dropWhile p := by
  induction a with
  | nil => rfl
  | cons x t ih =>
    have hx : p x = true := ha x (by simp)
    simp only [List.cons_append, List.dropWhile, hx]
    exact ih fun c hc => ha c (by simp [hc])

theorem trim_append_ws {l : List Char} {w : List Char}
    (hw : ∀ c ∈ w, isWs c = true)
    (h1 : ∀ c ∈ l.head?, isWs c = false)
    (h2 : ∀ c ∈ l.getLast?, isWs c = false)
    (hne : l ≠ []) :
    trim (l ++ w) = l := by
  unfold trim
  have hhead : (l ++ w).dropWhile isWs = l ++ w := by
    apply dropWhile_eq_self_of_head
    intro c hc
    cases l with
    | nil => exact absurd rfl hne
    | cons a t =>
      simp at hc
      subst hc
      exact h1 a (by simp)
  rw [hhead, List.reverse_append]
  rw [dropWhile_all_append (by intro c hc; exact hw c (List.mem_reverse.mp hc))]
  rw [dropWhile_eq_self_of_head (by
    intro c hc
    rw [List.head?_reverse] at hc
    exact h2 c hc)]
  exact List.reverse_reverse l

end JsStr

namespace Store

theorem get_del_self (st : Store) (k : String) : get (del st k) k = none := by
  induction st with
  | nil => rfl
  | cons a t ih =>
    by_cases h : a.1 = k
    · simpa [del, h] using ih
    · simpa [del, get, h] using ih

theorem get_del_other (st : Store) (k k' : String) (h : k' ≠ k) :
    get (del st k) k' = get st k' := by
  induction st with
  | nil => rfl
  | cons a t ih =>
    have hkk : ¬ k = k' := fun hh => h hh.symm
    by_cases ha : a.1 = k
    · have hb : ¬ a.1 = k' := by rw [ha]; exact hkk
      simpa [del, get, ha, hb, hkk] using ih
    · by_cases hb : a.1 = k'
      · simp [del, get, ha, hb, h]
      · simpa [del, get, ha, hb] using ih

theorem get_set_self (st : Store) (k : String) (v : ProgressRec) :
    get (set st k v) k = some v := by
  induction st with
  | nil => simp [set, get]
  | cons a t ih =>
    by_cases ha : a.1 = k
    · simp [set, get, ha]
    · simpa [set, get, ha] using ih

theorem get_foldl_set_last (k : String) :
    ∀ (ws : List ProgressRec) (st : Store) (w : ProgressRec),
      get (List.foldl (fun s r => set s k r) st (w :: ws)) k
        = some ((w :: ws).getLast (by simp)) := by
  intro ws
  induction ws with
  | nil => intro st w; simpa using get_set_self st k w
  | cons b t ih =>
    intro st w
    have := ih (set st k w) b
    simp only [List.foldl] at this ⊢
    rw [this]
    simp [List.getLast]

end Store

/-- C3: a download request whose target artifact already exists on disk,
is non-empty, and passes ffprobe validation short-circuits: the progress
record jumps to 100 with the artifact URL and the asynchronous acquisition
task (yt-dlp and the ytdl-core fallback) is never spawned. -/
theorem c3_existing_artifact_short_circuit
    (title : String) (q : Option String) (t : VideoDl.MediaType)
    (fs : VideoDl.FsOracle)
    (hex : fs.fileExists = true) (hsz : 0 < fs.fileSize)
    (hv : fs.fileValid = true) :
    VideoDl.handleDownloadPre title q t fs =
      ⟨⟨100, none, some ("/downloads/" ++ VideoDl.fileName title q t)⟩,
        .fileReady ("/downloads/" ++ VideoDl.fileName title q t), false⟩ := by
  have hne : ¬ fs.fileSize = 0 := Nat.pos_iff_ne_zero.mp hsz
  unfold VideoDl.handleDownloadPre
  simp [hex, hne, hv]

theorem c3_existing_artifact_short_circuit_witness :
    VideoDl.handleDownloadPre "Video_YouTube" (some "medium")
        VideoDl.MediaType.audio ⟨true, 52341, true⟩ =
      ⟨⟨100, none, some "/downloads/Video_YouTube_medium.mp3"⟩,
        .fileReady "/downloads/Video_YouTube_medium.mp3", false⟩ :=
  c3_existing_artifact_short_circuit "Video_YouTube" (some "medium")
    VideoDl.MediaType.audio ⟨true, 52341, true⟩ rfl (by decide) rfl

/-- C5: the streaming endpoint polls the store every 500 ms (sub-second); a
tick with a record present pushes it; a tick that pushes a terminal record
(progress 100 or a truthy error) removes the store entry and ends the
response; a client disconnect clears the interval and removes the store
entry. -/
theorem c5_progress_stream_behavior
    (s : Hosting.SseState) (r : ProgressRec)
    (hint : s.intervalOn = true) (hst : s.store = some r) :
    ((Hosting.tick s).pushed = s.pushed ++ [r]) ∧
    (Hosting.isTerminal r = true →
      (Hosting.tick s).store = none ∧ (Hosting.tick s).streamOpen = false) ∧
    ((Hosting.clientClose s).intervalOn = false ∧
      (Hosting.clientClose s).store = none) ∧
    (Hosting.pollIntervalMs = 500 ∧ Hosting.pollIntervalMs < 1000) := by
  by_cases hterm : Hosting.isTerminal r = true
  · refine ⟨?_, ?_, ⟨rfl, rfl⟩, ⟨rfl, by decide⟩⟩ <;>
      simp [Hosting.tick, Hosting.sendProgress, hint, hst, hterm]
  · refine ⟨?_, ?_, ⟨rfl, rfl⟩, ⟨rfl, by decide⟩⟩ <;>
      simp [Hosting.tick, Hosting.sendProgress, hint, hst, hterm]

theorem c5_progress_stream_behavior_witness :
    ((Hosting.tick ⟨some ⟨100, none, some "/downloads/a.mp4"⟩, true, true, []⟩).pushed
        = [] ++ [⟨100, none, some "/downloads/a.mp4"⟩]) ∧
    (Hosting.isTerminal ⟨100, none, some "/downloads/a.mp4"⟩ = true →
      (Hosting.tick ⟨some ⟨100, none, some "/downloads/a.mp4"⟩, true, true, []⟩).store = none ∧
      (Hosting.tick ⟨some ⟨100, none, some "/downloads/a.mp4"⟩, true, true, []⟩).streamOpen = false) ∧
    ((Hosting.clientClose ⟨some ⟨100, none, some "/downloads/a.mp4"⟩, true, true, []⟩).intervalOn = false ∧
      (Hosting.clientClose ⟨some ⟨100, none, some "/downloads/a.mp4"⟩, true, true, []⟩).store = none) ∧
    (Hosting.pollIntervalMs = 500 ∧ Hosting.pollIntervalMs < 1000) :=
  c5_progress_stream_behavior
    ⟨some ⟨100, none, some "/downloads/a.mp4"⟩, true, true, []⟩
    ⟨100, none, some "/downloads/a.mp4"⟩ rfl rfl

/-- C10: refutation at a concrete trace.  The claim says the store entry
stays absent after cancellation; but after `POST /api/cancel-download/d1`
deletes the entry, the orchestrator's next `downloadProgressMap.set`
(videoDownloader.js 178) recreates it. -/
theorem c10_counterexample :
    Store.get (Store.del (Store.set [] "d1" ⟨10, none, none⟩) "d1") "d1" = none ∧
    Store.get (Store.set (Store.del (Store.set [] "d1" ⟨10, none, none⟩) "d1")
        "d1" ⟨50, none, none⟩) "d1" = some ⟨50, none, none⟩ ∧
    ¬ (Store.get (Store.set (Store.del (Store.set [] "d1" ⟨10, none, none⟩) "d1")
        "d1" ⟨50, none, none⟩) "d1" = none) := by
  decide

/-- C10 (amended): cancellation removes exactly the request's entry (other
keys are untouched) and does not preempt the task — the task's later writes
are applied unchanged — but the entry does not stay absent: the next write
recreates it, and after further writes the entry holds the last write. -/
theorem c10_cancel_removes_entry_until_next_write
    (st : Store) (k : String) (v : ProgressRec)
    (ws : List ProgressRec) (w : ProgressRec) :
    Store.get (Store.del st k) k = none ∧
    (∀ k', k' ≠ k → Store.get (Store.del st k) k' = Store.get st k') ∧
    Store.get (Store.set (Store.del st k) k v) k = some v ∧
    Store.get (List.foldl (fun s r => Store.set s k r) (Store.del st k) (w :: ws)) k
      = some ((w :: ws).getLast (by simp)) :=
  ⟨Store.get_del_self st k,
   fun k' h => Store.get_del_other st k k' h,
   Store.get_set_self (Store.del st k) k v,
   Store.get_foldl_set_last k ws (Store.del st k) w⟩

theorem c10_cancel_removes_entry_until_next_write_witness :
    Store.get (Store.del [("d1", ⟨10, none, none⟩), ("d2", ⟨70, none, none⟩)] "d1") "d1" = none ∧
    Store.get (Store.del [("d1", ⟨10, none, none⟩), ("d2", ⟨70, none, none⟩)] "d1") "d2"
      = Store.get [("d1", ⟨10, none, none⟩), ("d2", ⟨70, none, none⟩)] "d2" ∧
    Store.get (Store.set (Store.del [("d1", ⟨10, none, none⟩), ("d2", ⟨70, none, none⟩)] "d1")
        "d1" ⟨50, none, none⟩) "d1" = some ⟨50, none, none⟩ :=
  have h := c10_cancel_removes_entry_until_next_write
    [("d1", ⟨10, none, none⟩), ("d2", ⟨70, none, none⟩)] "d1" ⟨50, none, none⟩
    [] ⟨100, none, some "/downloads/a.mp4"⟩
  ⟨h.1, h.2.1 "d2" (by decide), h.2.2.1⟩

/-- C9: evaluation at the failing input.  The duplicate-request logic of
part_000 610–616/797 does implement the claimed rejection-and-release, but
`handleDownloadSubtitle` calls `fs.access(...).then(...)` on the callback
`fs` module at line 599, which throws a `TypeError` on every request before
the duplicate check runs: no key is ever registered as in-flight, so a second
identical request is never answered with the 429 rejection. -/
theorem c9_dedup_check_unreachable :
    (Part0.dedupRegister [Part0.requestKey "https://youtu.be/dQw4w9WgXcQ" "en" "srt"]
        (Part0.requestKey "https://youtu.be/dQw4w9WgXcQ" "en" "srt") "id2"
      = (.tooMany "Yêu cầu tải phụ đề đang được xử lý. Vui lòng chờ!",
         [Part0.requestKey "https://youtu.be/dQw4w9WgXcQ" "en" "srt"])) ∧
    (Part0.releaseKey [Part0.requestKey "https://youtu.be/dQw4w9WgXcQ" "en" "srt"]
        (Part0.requestKey "https://youtu.be/dQw4w9WgXcQ" "en" "srt") = []) ∧
    (Part0.handleDownloadSubtitle []
        ⟨"https://youtu.be/dQw4w9WgXcQ", "youtube", some "en", some "srt"⟩
        ⟨true, "en"⟩
      = (.thrown Part0.fsCallbackTypeError, [])) ∧
    (Part0.handleDownloadSubtitle
        [Part0.requestKey "https://youtu.be/dQw4w9WgXcQ" "en" "srt"]
        ⟨"https://youtu.be/dQw4w9WgXcQ", "youtube", some "en", some "srt"⟩
        ⟨true, "en"⟩
      = (.thrown Part0.fsCallbackTypeError,
         [Part0.requestKey "https://youtu.be/dQw4w9WgXcQ" "en" "srt"])) :=
  ⟨by decide, by decide, by decide, by decide⟩

/-- C7: refutation at a concrete input.  For a format list containing only an
audio format (no video-capable format at all), a `high`-quality video request
does not fail: `selectAvailableFormat` (videoDownloader.js 66–69) falls back
to the audio format's itag, where the claim requires failure. -/
theorem c7_counterexample :
    VideoDl.selectAvailableFormat [⟨140, none, VideoDl.MediaType.audio⟩]
        "high" VideoDl.MediaType.video = some 140 ∧
    List.all [(⟨140, none, VideoDl.MediaType.audio⟩ : VideoDl.FmtEntry)]
        (fun f => decide (f.ftype = VideoDl.MediaType.audio)) = true := by
  decide

/-- C1: refutation at a concrete oracle.  Strategy 1 fails transiently
(throws) on every pass while strategy 2 would succeed; the claim requires the
orchestrator to advance to strategy 2 after strategy 1's retries are
exhausted, but `downloadSubtitleWithRetry` restarts the whole chain from
strategy 1 on each pass: strategy 1 is invoked on passes 0, 1, 2, strategy 2
is never invoked, and the request fails. -/
theorem c1_counterexample :
    SubDl.downloadSubtitleWithRetry
        (fun _ m => if m = 0 then SubDl.SOutcome.err else SubDl.SOutcome.success)
      = ⟨[((0 : Fin 3), (0 : Fin 3)), (1, 0), (2, 0)], [1000, 2000], false⟩ := by
  decide

/-- C1 (amended): what the retry structure actually guarantees.  The whole
three-method chain is retried up to 3 times with exponential backoff
`min(1000·2^attempt, 10000)` ms (1 s, then 2 s) between failed passes; within
a pass the methods run in priority order, a method advances to the next only
by yielding no content (not-available), and a thrown (transient) failure ends
the pass — skipping the remaining methods — rather than being retried per
method; a later pass starts only after an earlier pass failed; the run
succeeds exactly when some invoked method returned content.  Network fetches
inside a method additionally use `fetchWithRetry`, whose delays are FIXED
(`retries = 3, delay = 2000` at the call sites, not exponential). -/
theorem c1_chain_retry_structure :
    -- within one pass: methods run in priority order; only a method that
    -- yields no content (not-available) advances to the next; a thrown
    -- failure — or a success — ends the pass with the remaining methods
    -- never invoked:
    (∀ f : Fin 3 → SubDl.SOutcome,
      SubDl.chainPass f =
        if f 0 = SubDl.SOutcome.notAvail then
          if f 1 = SubDl.SOutcome.notAvail then
            ([0, 1, 2], decide (f 2 = SubDl.SOutcome.success))
          else ([0, 1], decide (f 1 = SubDl.SOutcome.success))
        else ([0], decide (f 0 = SubDl.SOutcome.success))) ∧
    -- across passes: the whole chain is retried up to 3 times, restarting at
    -- method 0, with backoff 1000 ms then 2000 ms between failed passes:
    (∀ o : SubDl.ChainOracle,
      SubDl.downloadSubtitleWithRetry o =
        if (SubDl.chainPass (o 0)).2 then
          ⟨(SubDl.chainPass (o 0)).1.map (fun m => ((0 : Fin 3), m)), [], true⟩
        else if (SubDl.chainPass (o 1)).2 then
          ⟨(SubDl.chainPass (o 0)).1.map (fun m => ((0 : Fin 3), m)) ++
            (SubDl.chainPass (o 1)).1.map (fun m => ((1 : Fin 3), m)), [1000], true⟩
        else
          ⟨(SubDl.chainPass (o 0)).1.map (fun m => ((0 : Fin 3), m)) ++
            (SubDl.chainPass (o 1)).1.map (fun m => ((1 : Fin 3), m)) ++
            (SubDl.chainPass (o 2)).1.map (fun m => ((2 : Fin 3), m)),
           [1000, 2000], (SubDl.chainPass (o 2)).2⟩) ∧
    -- in particular, a transiently failing first method starves the rest of
    -- the chain whatever the other methods would do:
    (∀ o : SubDl.ChainOracle, (∀ a, o a 0 = SubDl.SOutcome.err) →
      SubDl.downloadSubtitleWithRetry o
        = ⟨[((0 : Fin 3), (0 : Fin 3)), (1, 0), (2, 0)], [1000, 2000], false⟩) ∧
    -- the backoff is exponential from 1 s, doubling, capped at 10 s:
    SubDl.backoffDelay 0 = 1000 ∧ SubDl.backoffDelay 1 = 2000 ∧
    SubDl.backoffDelay 4 = 10000 ∧
    -- network fetches inside a method retry with a FIXED delay instead:
    (∀ d : Nat, Utils.fetchWithRetry 3 d (fun _ => false) = (4, [d, d, d], false)) := by
  refine ⟨by decide, ?_, ?_, rfl, rfl, rfl, fun _ => rfl⟩
  · intro o
    unfold SubDl.downloadSubtitleWithRetry
    by_cases h0 : (SubDl.chainPass (o 0)).2 <;>
      by_cases h1 : (SubDl.chainPass (o 1)).2 <;>
        simp [h0, h1, SubDl.backoffDelay]
  · intro o h
    have hc : ∀ a, SubDl.chainPass (o a) = ([0], false) := by
      intro a
      unfold SubDl.chainPass
      rw [h a]
    unfold SubDl.downloadSubtitleWithRetry
    rw [hc 0, hc 1, hc 2]
    simp [SubDl.backoffDelay]

theorem c1_chain_retry_structure_witness :
    SubDl.downloadSubtitleWithRetry
        (fun _ m => if m = 0 then SubDl.SOutcome.err else SubDl.SOutcome.notAvail)
      = ⟨[((0 : Fin 3), (0 : Fin 3)), (1, 0), (2, 0)], [1000, 2000], false⟩ :=
  c1_chain_retry_structure.2.2.1
    (fun _ m => if m = 0 then SubDl.SOutcome.err else SubDl.SOutcome.notAvail)
    (fun _ => rfl)

/-- C6: refutation at a concrete trace.  During the single yt-dlp phase (no
strategy restart occurs: the subprocess succeeds and the fallback never
runs), the written `percentComplete` values are the raw parsed subprocess
percentages 11.5 then 10.0 — a regression that the claim's only allowed
exception (restarting at a later strategy) does not cover. -/
theorem c6_counterexample :
    VideoDl.videoTask VideoDl.regressFixture "f.mp4" =
      [⟨23/2, none, none⟩, ⟨10, none, none⟩,
        ⟨100, none, some "/downloads/f.mp4"⟩] ∧
    ¬ List.Chain' (· ≤ ·)
        ((VideoDl.videoTask VideoDl.regressFixture "f.mp4").map
          ProgressRec.progress) := by
  have e1 : VideoDl.searchPercent ("[download]  11.5% of ~10MiB").data
      = some (((11 : Nat) : Rat) + ((5 : Nat) : Rat) / (10 : Rat) ^ (1 : Nat)) := rfl
  have e2 : VideoDl.searchPercent ("[download]  10.0% of ~10MiB").data
      = some (((10 : Nat) : Rat) + ((0 : Nat) : Rat) / (10 : Rat) ^ (1 : Nat)) := rfl
  have hw : VideoDl.ytDlpWrites VideoDl.regressFixture.ytChunks = [23/2, 10] := by
    show List.filterMap _ _ = _
    rw [show VideoDl.regressFixture.ytChunks
        = ["[download]  11.5% of ~10MiB", "[download]  10.0% of ~10MiB"] from rfl]
    rw [List.filterMap_cons, List.filterMap_cons, List.filterMap_nil]
    rw [e1, e2]
    norm_num
  have htask : VideoDl.videoTask VideoDl.regressFixture "f.mp4" =
      [⟨23/2, none, none⟩, ⟨10, none, none⟩,
        ⟨100, none, some "/downloads/f.mp4"⟩] := by
    unfold VideoDl.videoTask
    rw [hw]
    rfl
  refine ⟨htask, ?_⟩
  rw [htask]
  simp only [List.map_cons, List.map_nil, List.chain'_cons]
  intro hch
  have h1 := hch.1
  norm_num at h1

theorem round_le_round_rat {a b : Rat} (h : a ≤ b) : round a ≤ round b := by
  rw [round_eq, round_eq]
  exact Int.floor_le_floor (by linarith)

theorem videoPhaseProgress_nonneg (d t : Nat) :
    0 ≤ VideoDl.videoPhaseProgress d t := by
  unfold VideoDl.videoPhaseProgress
  have h0 : (0 : Rat) ≤ (d : Rat) / (t : Rat) * 100 * (1/2) := by positivity
  have h := round_le_round_rat h0
  rw [round_zero] at h
  exact_mod_cast h

theorem videoPhaseProgress_le (d t : Nat) (hd : d ≤ t) (ht : 0 < t) :
    VideoDl.videoPhaseProgress d t ≤ 50 := by
  unfold VideoDl.videoPhaseProgress
  have hx : (d : Rat) / (t : Rat) * 100 * (1/2) ≤ 50 := by
    have h1 : (d : Rat) / (t : Rat) ≤ 1 := by
      rw [div_le_one (by exact_mod_cast ht)]
      exact_mod_cast hd
    linarith
  have h := round_le_round_rat hx
  rw [show ((50 : Rat)) = ((50 : Nat) : Rat) by norm_num, round_natCast] at h
  exact_mod_cast h

theorem videoPhaseProgress_mono (t : Nat) {d1 d2 : Nat} (h : d1 ≤ d2) :
    VideoDl.videoPhaseProgress d1 t ≤ VideoDl.videoPhaseProgress d2 t := by
  unfold VideoDl.videoPhaseProgress
  have hq : (d1 : Rat) / (t : Rat) * 100 * (1/2) ≤ (d2 : Rat) / (t : Rat) * 100 * (1/2) := by
    rcases Nat.eq_zero_or_pos t with ht | ht
    · simp [ht]
    · have hc : (d1 : Rat) ≤ (d2 : Rat) := by exact_mod_cast h
      gcongr
  exact_mod_cast round_le_round_rat hq

theorem audioPhaseProgress_ge (d t : Nat) :
    50 ≤ VideoDl.audioPhaseProgress d t := by
  unfold VideoDl.audioPhaseProgress
  have h0 : (0 : Rat) ≤ (d : Rat) / (t : Rat) * 100 * (1/2) := by positivity
  have h := round_le_round_rat h0
  rw [round_zero] at h
  have : (0 : Rat) ≤ ((round ((d : Rat) / (t : Rat) * 100 * (1/2)) : Int) : Rat) := by
    exact_mod_cast h
  linarith

theorem audioPhaseProgress_le (d t : Nat) (hd : d ≤ t) (ht : 0 < t) :
    VideoDl.audioPhaseProgress d t ≤ 100 := by
  unfold VideoDl.audioPhaseProgress
  have hx : (d : Rat) / (t : Rat) * 100 * (1/2) ≤ 50 := by
    have h1 : (d : Rat) / (t : Rat) ≤ 1 := by
      rw [div_le_one (by exact_mod_cast ht)]
      exact_mod_cast hd
    linarith
  have h := round_le_round_rat hx
  rw [show ((50 : Rat)) = ((50 : Nat) : Rat) by norm_num, round_natCast] at h
  have : ((round ((d : Rat) / (t : Rat) * 100 * (1/2)) : Int) : Rat) ≤ 50 := by
    exact_mod_cast h
  linarith

theorem audioPhaseProgress_mono (t : Nat) {d1 d2 : Nat} (h : d1 ≤ d2) :
    VideoDl.audioPhaseProgress d1 t ≤ VideoDl.audioPhaseProgress d2 t := by
  unfold VideoDl.audioPhaseProgress
  have hq : (d1 : Rat) / (t : Rat) * 100 * (1/2) ≤ (d2 : Rat) / (t : Rat) * 100 * (1/2) := by
    rcases Nat.eq_zero_or_pos t with ht | ht
    · simp [ht]
    · have hc : (d1 : Rat) ≤ (d2 : Rat) := by exact_mod_cast h
      gcongr
  have := round_le_round_rat hq
  have h2 : ((round ((d1 : Rat) / (t : Rat) * 100 * (1/2)) : Int) : Rat)
      ≤ ((round ((d2 : Rat) / (t : Rat) * 100 * (1/2)) : Int) : Rat) := by
    exact_mod_cast this
  linarith

theorem audioOnlyProgress_nonneg (d t : Nat) :
    0 ≤ VideoDl.audioOnlyProgress d t := by
  unfold VideoDl.audioOnlyProgress
  have h0 : (0 : Rat) ≤ (d : Rat) / (t : Rat) * 100 := by positivity
  have h := round_le_round_rat h0
  rw [round_zero] at h
  exact_mod_cast h

theorem audioOnlyProgress_le (d t : Nat) (hd : d ≤ t) (ht : 0 < t) :
    VideoDl.audioOnlyProgress d t ≤ 100 := by
  unfold VideoDl.audioOnlyProgress
  have hx : (d : Rat) / (t : Rat) * 100 ≤ 100 := by
    have h1 : (d : Rat) / (t : Rat) ≤ 1 := by
      rw [div_le_one (by exact_mod_cast ht)]
      exact_mod_cast hd
    linarith
  have h := round_le_round_rat hx
  rw [show ((100 : Rat)) = ((100 : Nat) : Rat) by norm_num, round_natCast] at h
  exact_mod_cast h

theorem audioOnlyProgress_mono (t : Nat) {d1 d2 : Nat} (h : d1 ≤ d2) :
    VideoDl.audioOnlyProgress d1 t ≤ VideoDl.audioOnlyProgress d2 t := by
  unfold VideoDl.audioOnlyProgress
  have hq : (d1 : Rat) / (t : Rat) * 100 ≤ (d2 : Rat) / (t : Rat) * 100 := by
    rcases Nat.eq_zero_or_pos t with ht | ht
    · simp [ht]
    · have hc : (d1 : Rat) ≤ (d2 : Rat) := by exact_mod_cast h
      gcongr
  exact_mod_cast round_le_round_rat hq

/-- C6 (amended): the code enforces no global monotonicity — yt-dlp-phase
writes mirror the subprocess's raw percentages unclamped (see the
counterexample) and a terminal error write resets progress to 0.  What does
hold: in the ytdl-core fallback, for non-decreasing downloaded-byte sequences
against fixed totals, the written sequence of a video request (video phase,
then audio phase, then the terminal 100) and the written sequence of an
audio-only request (audio-only phase, then the terminal 100) are
monotonically non-decreasing, with video-phase values in [0, 50], audio-phase
values in [50, 100], and audio-only values in [0, 100]. -/
theorem c6_fallback_progress_monotone
    (vds ads : List Nat) (tv ta itag : Nat) (fn : String)
    (htv : 0 < tv) (hta : 0 < ta)
    (hv1 : List.Chain' (· ≤ ·) vds) (hv2 : ∀ d ∈ vds, d ≤ tv)
    (ha1 : List.Chain' (· ≤ ·) ads) (ha2 : ∀ d ∈ ads, d ≤ ta) :
    List.Chain' (· ≤ ·) ((0 : Rat) ::
      (VideoDl.videoTask
        ⟨[], 1, some itag, VideoDl.MediaType.video,
         vds.map (fun d => (d, tv)), 1, none,
         ads.map (fun d => (d, ta)), 1, none,
         none, none, true, 1, true⟩ fn).map ProgressRec.progress) ∧
    (∀ d ∈ vds, 0 ≤ VideoDl.videoPhaseProgress d tv ∧
      VideoDl.videoPhaseProgress d tv ≤ 50) ∧
    (∀ d ∈ ads, 50 ≤ VideoDl.audioPhaseProgress d ta ∧
      VideoDl.audioPhaseProgress d ta ≤ 100) ∧
    List.Chain' (· ≤ ·) ((0 : Rat) ::
      (VideoDl.videoTask
        ⟨[], 1, some itag, VideoDl.MediaType.audio,
         [], 0, none,
         ads.map (fun d => (d, ta)), 1, none,
         none, none, true, 1, true⟩ fn).map ProgressRec.progress) ∧
    (∀ d ∈ ads, 0 ≤ VideoDl.audioOnlyProgress d ta ∧
      VideoDl.audioOnlyProgress d ta ≤ 100) := by
  have hvB : ∀ d ∈ vds, 0 ≤ VideoDl.videoPhaseProgress d tv ∧
      VideoDl.videoPhaseProgress d tv ≤ 50 := fun d hd =>
    ⟨videoPhaseProgress_nonneg d tv, videoPhaseProgress_le d tv (hv2 d hd) htv⟩
  have haB : ∀ d ∈ ads, 50 ≤ VideoDl.audioPhaseProgress d ta ∧
      VideoDl.audioPhaseProgress d ta ≤ 100 := fun d hd =>
    ⟨audioPhaseProgress_ge d ta, audioPhaseProgress_le d ta (ha2 d hd) hta⟩
  have haoB : ∀ d ∈ ads, 0 ≤ VideoDl.audioOnlyProgress d ta ∧
      VideoDl.audioOnlyProgress d ta ≤ 100 := fun d hd =>
    ⟨audioOnlyProgress_nonneg d ta, audioOnlyProgress_le d ta (ha2 d hd) hta⟩
  refine ⟨?_, hvB, haB, ?_, haoB⟩
  case refine_2 =>
    have htask2 : (VideoDl.videoTask
        ⟨[], 1, some itag, VideoDl.MediaType.audio,
         [], 0, none,
         ads.map (fun d => (d, ta)), 1, none,
         none, none, true, 1, true⟩ fn).map ProgressRec.progress =
        ads.map (fun d => VideoDl.audioOnlyProgress d ta) ++ [100] := by
      unfold VideoDl.videoTask
      simp [VideoDl.ytDlpWrites, VideoDl.postChecks, List.map_map,
        Function.comp_def]
    rw [htask2]
    apply List.chain'_cons'.mpr
    constructor
    · intro y hy
      have hmem := List.mem_of_mem_head? hy
      rcases List.mem_append.mp hmem with h | h
      · obtain ⟨d, hd, rfl⟩ := List.mem_map.mp h
        exact (haoB d hd).1
      · simp at h
        rw [h]
        norm_num
    · apply List.chain'_append.mpr
      refine ⟨?_, List.chain'_singleton _, ?_⟩
      · rw [List.chain'_map]
        exact ha1.imp (fun a b hab => audioOnlyProgress_mono ta hab)
      · intro x hx y hy
        obtain ⟨d, hd, rfl⟩ := List.mem_map.mp (List.mem_of_mem_getLast? hx)
        simp only [List.head?_cons, Option.mem_def, Option.some.injEq] at hy
        subst hy
        exact (haoB d hd).2
  have htask : (VideoDl.videoTask
      ⟨[], 1, some itag, VideoDl.MediaType.video,
       vds.map (fun d => (d, tv)), 1, none,
       ads.map (fun d => (d, ta)), 1, none,
       none, none, true, 1, true⟩ fn).map ProgressRec.progress =
      (vds.map (fun d => VideoDl.videoPhaseProgress d tv) ++
        ads.map (fun d => VideoDl.audioPhaseProgress d ta)) ++ [100] := by
    unfold VideoDl.videoTask
    simp [VideoDl.ytDlpWrites, VideoDl.postChecks, List.map_map, Function.comp_def]
  rw [htask]
  apply List.chain'_cons'.mpr
  constructor
  · intro y hy
    have hmem := List.mem_of_mem_head? hy
    rcases List.mem_append.mp hmem with h | h
    · rcases List.mem_append.mp h with h' | h'
      · obtain ⟨d, hd, rfl⟩ := List.mem_map.mp h'
        exact (hvB d hd).1
      · obtain ⟨d, hd, rfl⟩ := List.mem_map.mp h'
        linarith [(haB d hd).1]
    · simp at h
      rw [h]
      norm_num
  · apply List.chain'_append.mpr
    refine ⟨?_, List.chain'_singleton _, ?_⟩
    · apply List.chain'_append.mpr
      refine ⟨?_, ?_, ?_⟩
      · rw [List.chain'_map]
        exact hv1.imp (fun a b hab => videoPhaseProgress_mono tv hab)
      · rw [List.chain'_map]
        exact ha1.imp (fun a b hab => audioPhaseProgress_mono ta hab)
      · intro x hx y hy
        obtain ⟨d, hd, rfl⟩ := List.mem_map.mp
          (List.mem_of_mem_getLast? hx)
        obtain ⟨d', hd', rfl⟩ := List.mem_map.mp
          (List.mem_of_mem_head? hy)
        calc VideoDl.videoPhaseProgress d tv ≤ 50 := (hvB d hd).2
          _ ≤ VideoDl.audioPhaseProgress d' ta := (haB d' hd').1
    · intro x hx y hy
      have hx' := List.mem_of_mem_getLast? hx
      simp only [List.head?_cons, Option.mem_def, Option.some.injEq] at hy
      subst hy
      rcases List.mem_append.mp hx' with h | h
      · obtain ⟨d, hd, rfl⟩ := List.mem_map.mp h
        linarith [(hvB d hd).2]
      · obtain ⟨d, hd, rfl⟩ := List.mem_map.mp h
        exact (haB d hd).2

theorem c6_fallback_progress_monotone_witness :
    List.Chain' (· ≤ ·) ((0 : Rat) ::
      (VideoDl.videoTask
        ⟨[], 1, some 22, VideoDl.MediaType.video,
         [0, 5, 10].map (fun d => (d, (10 : Nat))), 1, none,
         [2, 8].map (fun d => (d, (8 : Nat))), 1, none,
         none, none, true, 1, true⟩ "v.mp4").map ProgressRec.progress) ∧
    List.Chain' (· ≤ ·) ((0 : Rat) ::
      (VideoDl.videoTask
        ⟨[], 1, some 22, VideoDl.MediaType.audio,
         [], 0, none,
         [2, 8].map (fun d => (d, (8 : Nat))), 1, none,
         none, none, true, 1, true⟩ "v.mp4").map ProgressRec.progress) :=
  ⟨(c6_fallback_progress_monotone [0, 5, 10] [2, 8] 10 8 22 "v.mp4"
    (by decide) (by decide) (by simp [List.chain'_cons]) (by decide)
    (by simp [List.chain'_cons]) (by decide)).1,
   (c6_fallback_progress_monotone [0, 5, 10] [2, 8] 10 8 22 "v.mp4"
    (by decide) (by decide) (by simp [List.chain'_cons]) (by decide)
    (by simp [List.chain'_cons]) (by decide)).2.2.2.1⟩

theorem postChecks_terminal (o : VideoDl.VideoOracle) (fn : String) :
    ∃ r, VideoDl.postChecks o fn = [r] ∧ isTerminalRec r := by
  cases hp : o.postThrow with
  | some m =>
    by_cases hm : m = ""
    · exact ⟨⟨0, some "Lỗi server khi tải nội dung.", none⟩,
        by simp [VideoDl.postChecks, hp, hm], Or.inr ⟨_, rfl, by decide⟩⟩
    · exact ⟨⟨0, some m, none⟩,
        by simp [VideoDl.postChecks, hp, hm], Or.inr ⟨_, rfl, hm⟩⟩
  | none =>
    by_cases h1 : o.fileExistsAfter
    · by_cases h2 : o.fileSizeAfter = 0
      · exact ⟨⟨0, some "File tải về rỗng. Vui lòng thử lại.", none⟩,
          by simp [VideoDl.postChecks, hp, h1, h2], Or.inr ⟨_, rfl, by decide⟩⟩
      · by_cases h3 : o.fileValidAfter
        · exact ⟨⟨100, none, some ("/downloads/" ++ fn)⟩,
            by simp [VideoDl.postChecks, hp, h1, h2, h3], Or.inl ⟨rfl, rfl⟩⟩
        · exact ⟨⟨0, some "File không hợp lệ. Vui lòng thử lại.", none⟩,
            by simp [VideoDl.postChecks, hp, h1, h2, h3], Or.inr ⟨_, rfl, by decide⟩⟩
    · exact ⟨⟨0, some "Tải xuống thất bại. File không được tạo.", none⟩,
        by simp [VideoDl.postChecks, hp, h1], Or.inr ⟨_, rfl, by decide⟩⟩

theorem errMessage_ne_empty (s : String) : Part0.errMessage s ≠ "" := by
  unfold Part0.errMessage
  by_cases h : s = "" <;> simp [h]

/-- C4: every execution path of the asynchronous acquisition tasks ends with a
single terminal record written to the progress store: either completed with a
result URL, or an error carrying a non-empty user-facing message.  Every
failure point is caught (videoDownloader.js 316–320, 324–352; part_000
783–798), so no failure path escapes the task. -/
theorem c4_failures_surface_as_terminal_error_records :
    (∀ (o : VideoDl.VideoOracle) (fn : String),
      ∃ r, (VideoDl.videoTask o fn).getLast? = some r ∧ isTerminalRec r) ∧
    (∀ o : Part0.TaskOracle,
      ∃ r, (Part0.subTask o).getLast? = some r ∧ isTerminalRec r) := by
  constructor
  · intro o fn
    obtain ⟨r, hp, ht⟩ := postChecks_terminal o fn
    have hfb : isTerminalRec VideoDl.fallbackErrRec := Or.inr ⟨_, rfl, by decide⟩
    simp only [VideoDl.videoTask, hp]
    repeat' split
    all_goals
      first
        | exact ⟨r, List.getLast?_concat _, ht⟩
        | exact ⟨VideoDl.fallbackErrRec, List.getLast?_concat _, hfb⟩
  · intro o
    simp only [Part0.subTask]
    repeat' split
    all_goals
      refine ⟨_, rfl, ?_⟩
    all_goals
      exact Or.inr ⟨_, rfl, errMessage_ne_empty _⟩

theorem findVideoByLabel_none_of_no_video
    (formats : List Server.SFormat)
    (h : ∀ f ∈ formats, f.hasVideo = false) :
    ∀ ls : List String, Server.findVideoByLabel formats ls = none := by
  intro ls
  induction ls with
  | nil => rfl
  | cons q qs ih =>
    unfold Server.findVideoByLabel
    have h1 : formats.find?
        (fun f => f.hasVideo && f.hasAudio && decide (f.qualityLabel = some q)) = none := by
      rw [List.find?_eq_none]
      intro f hf
      simp [h f hf]
    have h2 : formats.find?
        (fun f => f.hasVideo && decide (f.qualityLabel = some q)) = none := by
      rw [List.find?_eq_none]
      intro f hf
      simp [h f hf]
    rw [h1, h2]
    exact ih

/-- C7 (amended): the fallback ladders the code actually implements.
`videoDownloader.selectAvailableFormat` never fails on a nonempty format list
(after the tier labels it falls back to any video-typed, then any audio-typed,
then the first format); the server.js video selection fails exactly when no
video-capable format exists (with no intermediate muxed-format step); the
server.js audio selection prefers an audio-only mp3-container format and
otherwise accepts only audio-only formats, failing exactly when none exists. -/
theorem c7_quality_selection_fallbacks :
    (∀ (formats : List VideoDl.FmtEntry) (q : String) (t : VideoDl.MediaType),
      formats ≠ [] → (∀ f ∈ formats, f.itag ≠ 0) →
      ∃ n, VideoDl.selectAvailableFormat formats q t = some n) ∧
    (∀ (formats : List Server.SFormat) (q : String),
      Server.selectVideoFormat formats q = none ↔
        ∀ f ∈ formats, f.hasVideo = false) ∧
    (∀ formats : List Server.SFormat,
      Server.selectAudioFormat formats = none ↔
        ∀ f ∈ formats, (f.hasAudio && !f.hasVideo) = false) ∧
    (∀ formats : List Server.SFormat,
      (∃ f ∈ formats, Server.isMp3Audio f = true) →
      ∃ g, Server.selectAudioFormat formats = some g ∧ Server.isMp3Audio g = true) := by
  refine ⟨?_, ?_, ?_, ?_⟩
  · intro formats q t hne hitag
    unfold VideoDl.selectAvailableFormat
    rw [if_neg (by simpa [List.isEmpty_iff] using hne)]
    cases h1 : VideoDl.findByLabel formats t (VideoDl.qualityMap q) with
    | some f => exact ⟨f.itag, rfl⟩
    | none =>
      cases h2 : (if t = VideoDl.MediaType.video then
          formats.find? (fun f => decide (f.ftype = VideoDl.MediaType.video))
        else none) with
      | some f => exact ⟨f.itag, rfl⟩
      | none =>
        cases h3 : formats.find? (fun f => decide (f.ftype = VideoDl.MediaType.audio)) with
        | some f => exact ⟨f.itag, rfl⟩
        | none =>
          cases formats with
          | nil => exact absurd rfl hne
          | cons f0 rest =>
            refine ⟨f0.itag, ?_⟩
            have hit : ¬ f0.itag = 0 := hitag f0 (by simp)
            simp [h2, h3, hit]
  · intro formats q
    unfold Server.selectVideoFormat
    constructor
    · intro h
      cases h1 : Server.findVideoByLabel formats (Server.qualityMap q) with
      | some f => simp [h1] at h
      | none =>
        rw [h1] at h
        simp only at h
        intro f hf
        have := (List.find?_eq_none.mp h) f hf
        simpa using this
    · intro h
      rw [findVideoByLabel_none_of_no_video formats h]
      simp only
      rw [List.find?_eq_none]
      intro f hf
      simp [h f hf]
  · intro formats
    unfold Server.selectAudioFormat
    constructor
    · intro h
      cases h1 : formats.find? Server.isMp3Audio with
      | some f => simp [h1] at h
      | none =>
        rw [h1] at h
        simp only at h
        intro f hf
        have := (List.find?_eq_none.mp h) f hf
        simpa using this
    · intro h
      have h1 : formats.find? Server.isMp3Audio = none := by
        rw [List.find?_eq_none]
        intro f hf
        simp [Server.isMp3Audio, h f hf]
      rw [h1]
      simp only
      rw [List.find?_eq_none]
      intro f hf
      simp [h f hf]
  · intro formats hex
    have hsome : (formats.find? Server.isMp3Audio).isSome := by
      rw [List.find?_isSome]
      obtain ⟨f, hf, hm⟩ := hex
      exact ⟨f, hf, hm⟩
    obtain ⟨g, hg⟩ := Option.isSome_iff_exists.mp hsome
    refine ⟨g, ?_, List.find?_some hg⟩
    unfold Server.selectAudioFormat
    rw [hg]

theorem c7_quality_selection_fallbacks_witness :
    (∃ n, VideoDl.selectAvailableFormat
        [⟨140, none, VideoDl.MediaType.audio⟩] "high" VideoDl.MediaType.audio = some n) ∧
    (Server.selectVideoFormat [⟨18, some "360p", "mp4", "video/mp4", true, true⟩] "low" = none ↔
      ∀ f ∈ [(⟨18, some "360p", "mp4", "video/mp4", true, true⟩ : Server.SFormat)],
        f.hasVideo = false) ∧
    (∃ g, Server.selectAudioFormat
        [⟨139, none, "mp3", "audio/mp3", false, true⟩] = some g ∧
      Server.isMp3Audio g = true) :=
  ⟨c7_quality_selection_fallbacks.1 [⟨140, none, VideoDl.MediaType.audio⟩] "high"
      VideoDl.MediaType.audio (by decide) (by decide),
   c7_quality_selection_fallbacks.2.1 [⟨18, some "360p", "mp4", "video/mp4", true, true⟩] "low",
   c7_quality_selection_fallbacks.2.2.2 [⟨139, none, "mp3", "audio/mp3", false, true⟩]
     ⟨⟨139, none, "mp3", "audio/mp3", false, true⟩, by simp, by decide⟩⟩

namespace JsStr

/-- A global fixed-string replacement leaves a list untouched when some
character of the pattern does not occur in it. -/
theorem replAllGo_of_not_mem (pat rep : List Char) (p : Char) (hp : p ∈ pat)
    (fuel : Nat) : ∀ s : List Char, p ∉ s → replAllGo pat rep fuel s = s := by
  induction fuel with
  | zero => intro s _; cases s <;> rfl
  | succ n ih =>
    intro s hs
    match s with
    | [] => rfl
    | c :: r =>
      have hpre : ¬ (pat ≠ [] ∧ pat.isPrefixOf (c :: r)) := fun hq =>
        hs ((List.isPrefixOf_iff_prefix.mp hq.2).subset hp)
      simp only [replAllGo]
      rw [if_neg hpre, ih r (fun hr => hs (List.mem_cons_of_mem c hr))]

theorem replAll_of_not_mem (pat rep : List Char) (p : Char) (hp : p ∈ pat)
    (s : List Char) (hs : p ∉ s) : replAll pat rep s = s :=
  replAllGo_of_not_mem pat rep p hp s.length s hs

/-- Deleting every occurrence of a single-character pattern is a filter. -/
theorem replAllGo_single_eq_filter (a : Char) (fuel : Nat) :
    ∀ s : List Char, s.length ≤ fuel →
      replAllGo [a] [] fuel s = s.filter (fun c => ! (c == a)) := by
  induction fuel with
  | zero =>
    intro s hs
    have hnil : s = [] := List.eq_nil_of_length_eq_zero (Nat.le_zero.mp hs)
    subst hnil; rfl
  | succ n ih =>
    intro s hs
    match s with
    | [] => rfl
    | c :: r =>
      have hlen : r.length ≤ n := by
        simp only [List.length_cons] at hs; omega
      simp only [replAllGo]
      by_cases hc : c = a
      · subst hc
        rw [if_pos ⟨by simp, by simp [List.isPrefixOf]⟩]
        simp only [List.nil_append, List.length_cons, List.length_nil,
          List.drop_succ_cons, List.drop_zero]
        rw [ih r hlen]
        simp [List.filter_cons]
      · have hpre : ¬ (([a] : List Char) ≠ [] ∧ [a].isPrefixOf (c :: r)) := by
          rintro ⟨-, hq⟩
          obtain ⟨ts, hts⟩ := List.isPrefixOf_iff_prefix.mp hq
          simp only [List.cons_append, List.nil_append, List.cons.injEq] at hts
          exact hc hts.1.symm
        rw [if_neg hpre, ih r hlen]
        simp [List.filter_cons, hc]

theorem replAll_single_eq_filter (a : Char) (s : List Char) :
    replAll [a] [] s = s.filter (fun c => ! (c == a)) :=
  replAllGo_single_eq_filter a s.length s le_rfl

/-- Tag stripping leaves a list without any opening angle bracket untouched. -/
theorem stripTagsGo_of_not_mem (fuel : Nat) :
    ∀ s : List Char, ('<' : Char) ∉ s → stripTagsGo fuel s = s := by
  induction fuel with
  | zero => intro s _; cases s <;> rfl
  | succ n ih =>
    intro s hs
    match s with
    | [] => rfl
    | c :: r =>
      have hc : ¬ c = '<' := fun hq => hs (by rw [← hq]; exact List.mem_cons_self c r)
      simp only [stripTagsGo]
      rw [if_neg hc, ih r (fun hr => hs (List.mem_cons_of_mem c hr))]

theorem stripTags_eq_self (s : List Char) (hs : ('<' : Char) ∉ s) :
    stripTags s = s :=
  stripTagsGo_of_not_mem s.length s hs

end JsStr

/-- When the cleanup pipeline empties the content, `cleanSubtitleContent`
returns `none` (either through the empty-input guard or because no valid
line remains). -/
theorem cleanSubtitleContent_of_cleanup_nil (content : String)
    (h : SubDl.cleanupReplacements content.data = []) :
    SubDl.cleanSubtitleContent content = none := by
  unfold SubDl.cleanSubtitleContent
  by_cases hc : content = "" ∨ JsStr.trim content.data = []
  · rw [if_pos hc]
  · rw [if_neg hc, h]
    decide

/-- Content consisting only of C0/C1 control characters and the five
zero-width/bidi marks U+200B..U+200F is emptied by the cleanup stages, so
no cue survives. -/
theorem cleanSubtitleContent_control_only (t : List Char)
    (h : ∀ c ∈ t, SubDl.isC0C1 c = true ∨
      c ∈ [Char.ofNat 0x200B, Char.ofNat 0x200C, Char.ofNat 0x200D,
           Char.ofNat 0x200E, Char.ofNat 0x200F]) :
    SubDl.cleanSubtitleContent (String.mk t) = none := by
  apply cleanSubtitleContent_of_cleanup_nil
  show SubDl.cleanupReplacements t = []
  have hlt : ('<' : Char) ∉ t := fun hm => by
    rcases h _ hm with h1 | h1 <;> revert h1 <;> decide
  have hamp : ('&' : Char) ∉ t := fun hm => by
    rcases h _ hm with h1 | h1 <;> revert h1 <;> decide
  simp only [SubDl.cleanupReplacements]
  rw [JsStr.stripTags_eq_self t hlt,
    JsStr.replAll_of_not_mem "&nbsp;".data " ".data '&' (by decide) t hamp,
    JsStr.replAll_of_not_mem "&amp;".data "&".data '&' (by decide) t hamp,
    JsStr.replAll_of_not_mem "&lt;".data "<".data '&' (by decide) t hamp,
    JsStr.replAll_of_not_mem "&gt;".data ">".data '&' (by decide) t hamp,
    JsStr.replAll_of_not_mem "&quot;".data "\"".data '&' (by decide) t hamp,
    JsStr.replAll_of_not_mem "&#39;".data [Char.ofNat 39] '&' (by decide) t hamp,
    JsStr.replAll_single_eq_filter (Char.ofNat 0x200B) t,
    JsStr.replAll_single_eq_filter (Char.ofNat 0x200C) _,
    JsStr.replAll_single_eq_filter (Char.ofNat 0x200D) _,
    JsStr.replAll_single_eq_filter (Char.ofNat 0x200E) _,
    JsStr.replAll_single_eq_filter (Char.ofNat 0x200F) _]
  have h13 : (((((t.filter (fun c => ! (c == Char.ofNat 0x200B))).filter
      (fun c => ! (c == Char.ofNat 0x200C))).filter
      (fun c => ! (c == Char.ofNat 0x200D))).filter
      (fun c => ! (c == Char.ofNat 0x200E))).filter
      (fun c => ! (c == Char.ofNat 0x200F))).filter
      (fun c => ! SubDl.isC0C1 c) = [] := by
    rw [List.filter_eq_nil_iff]
    intro x hx
    simp only [List.mem_filter] at hx
    obtain ⟨⟨⟨⟨⟨hxt, h1⟩, h2⟩, h3⟩, h4⟩, h5⟩ := hx
    simp only [Bool.not_eq_true', beq_eq_false_iff_ne, ne_eq] at h1 h2 h3 h4 h5
    intro hpx
    simp only [Bool.not_eq_true'] at hpx
    rcases h _ hxt with hA | hA
    · rw [hA] at hpx; cases hpx
    · simp only [List.mem_cons, List.not_mem_nil, or_false] at hA
      rcases hA with rfl | rfl | rfl | rfl | rfl
      · exact h1 rfl
      · exact h2 rfl
      · exact h3 rfl
      · exact h4 rfl
      · exact h5 rfl
  rw [h13]
  decide

/-- C8: corrected cue-retention behaviour of `cleanSubtitleContent`.  (i) The
claim that a cue made only of HTML entities is dropped is false: the five
entities are decoded to ordinary punctuation characters, which count as valid
cue characters, so such a cue is retained and emitted (the `&amp;` case is the
counterexample; the other four decode likewise).  (ii) What the line filter
actually implements: a line is kept iff its trim is non-empty and it is either
a timing line or contains a character outside the control/format classes.
(iii) The part of the claim about control characters is right: content made
only of C0/C1 controls and the zero-width/bidi marks U+200B..U+200F is emptied
by the cleanup and yields no cue at all. -/
theorem c8_entity_cues_kept_control_only_dropped :
    (SubDl.cleanSubtitleContent "&lt;" = some "WEBVTT\n\n<" ∧
     SubDl.cleanSubtitleContent "&gt;" = some "WEBVTT\n\n>" ∧
     SubDl.cleanSubtitleContent "&quot;" =
       some (String.mk ("WEBVTT\n\n".data ++ [Char.ofNat 34])) ∧
     SubDl.cleanSubtitleContent "&#39;" =
       some (String.mk ("WEBVTT\n\n".data ++ [Char.ofNat 39])) ∧
     SubDl.cleanSubtitleContent "&nbsp;" = none) ∧
    (∀ l : List Char, SubDl.validLine l = true ↔
      ¬ (JsStr.trim l).isEmpty = true ∧
        (JsStr.hasTimePair (JsStr.trim l) = true ∨
          (JsStr.trim l).any SubDl.isValidCueChar = true)) ∧
    (∀ t : List Char,
      (∀ c ∈ t, SubDl.isC0C1 c = true ∨
        c ∈ [Char.ofNat 0x200B, Char.ofNat 0x200C, Char.ofNat 0x200D,
             Char.ofNat 0x200E, Char.ofNat 0x200F]) →
      SubDl.cleanSubtitleContent (String.mk t) = none) := by
  refine ⟨by decide, ?_, cleanSubtitleContent_control_only⟩
  intro l
  simp only [SubDl.validLine]
  by_cases h1 : (JsStr.trim l).isEmpty <;>
    by_cases h2 : JsStr.hasTimePair (JsStr.trim l) <;>
      simp [h1, h2]

theorem c8_entity_cues_kept_control_only_dropped_witness :
    SubDl.cleanSubtitleContent
      (String.mk [Char.ofNat 7, Char.ofNat 0x200B, Char.ofNat 0x9F]) = none :=
  c8_entity_cues_kept_control_only_dropped.2.2
    [Char.ofNat 7, Char.ofNat 0x200B, Char.ofNat 0x9F] (by decide)

/-- C8 counterexample: (a) a cue text that is exactly the HTML entity `&amp;`
is not dropped — the entity decodes to `&` and the cleaned content is emitted
under a WEBVTT header — refuting the claim that entity-only cues are dropped;
(b) the C0/C1 strip also deletes newlines, so a well-formed timed cue whose
text contains letters collapses into its timing line and the whole content is
rejected, refuting the only-if direction for ordinary letter-bearing cues. -/
theorem c8_counterexample :
    (SubDl.cleanSubtitleContent "&amp;" = some "WEBVTT\n\n&" ∧
     SubDl.cleanSubtitleContent "&amp;" ≠ none) ∧
    SubDl.cleanSubtitleContent "00:00:01.000 --> 00:00:02.000\nHello world" =
      none := by
  exact ⟨⟨by decide, by decide⟩, by decide⟩

set_option maxRecDepth 10000 in
/-- Two-digit zero-padded decimal form of every `k < 100`. -/
theorem pad_two_digits :
    ∀ k : Nat, k < 100 → (Server.pad k 2).data =
      [Char.ofNat (48 + k / 10), Char.ofNat (48 + k % 10)] := by decide

set_option maxRecDepth 100000 in
/-- Three-digit zero-padded decimal form of every `k < 1000`. -/
theorem pad_three_digits :
    ∀ k : Nat, k < 1000 → (Server.pad k 3).data =
      [Char.ofNat (48 + k / 100), Char.ofNat (48 + k / 10 % 10),
       Char.ofNat (48 + k % 10)] := by decide

/-- The ASCII digit characters are digits, read back to their value, and are
neither whitespace nor newlines. -/
theorem digit_char_facts : ∀ d : Nat, d < 10 →
    (Char.ofNat (48 + d)).isDigit = true ∧ Norm.d10 (Char.ofNat (48 + d)) = d ∧
    JsStr.isWs (Char.ofNat (48 + d)) = false ∧ ¬ Char.ofNat (48 + d) = '\n' := by
  decide

/-- Character-level form of `msToTime` below the 100-hour mark. -/
theorem msToTime_data (ms : Nat) (h : ms < 360000000) :
    (Server.msToTime ms).data =
      [Char.ofNat (48 + ms / 1000 / 3600 / 10), Char.ofNat (48 + ms / 1000 / 3600 % 10), ':',
       Char.ofNat (48 + ms / 1000 % 3600 / 60 / 10), Char.ofNat (48 + ms / 1000 % 3600 / 60 % 10), ':',
       Char.ofNat (48 + ms / 1000 % 60 / 10), Char.ofNat (48 + ms / 1000 % 60 % 10), '.',
       Char.ofNat (48 + ms % 1000 / 100), Char.ofNat (48 + ms % 1000 / 10 % 10),
       Char.ofNat (48 + ms % 1000 % 10)] := by
  unfold Server.msToTime
  simp only [String.data_append]
  rw [pad_two_digits _ (by omega), pad_two_digits _ (by omega),
    pad_two_digits _ (by omega), pad_three_digits _ (by omega)]
  rfl

/-- The spec-side timestamp reader inverts the server-side formatter below
the 100-hour mark. -/
theorem timeVal_msToTime (ms : Nat) (h : ms < 360000000) :
    Norm.timeVal (Server.msToTime ms).data = some ms := by
  rw [msToTime_data ms h]
  simp only [Norm.timeVal]
  rw [if_pos ⟨(digit_char_facts _ (by omega)).1, (digit_char_facts _ (by omega)).1, trivial,
    (digit_char_facts _ (by omega)).1, (digit_char_facts _ (by omega)).1, trivial,
    (digit_char_facts _ (by omega)).1, (digit_char_facts _ (by omega)).1, trivial,
    (digit_char_facts _ (by omega)).1, (digit_char_facts _ (by omega)).1,
    (digit_char_facts _ (by omega)).1⟩]
  rw [(digit_char_facts _ (show ms / 1000 / 3600 / 10 < 10 by omega)).2.1,
    (digit_char_facts _ (show ms / 1000 / 3600 % 10 < 10 by omega)).2.1,
    (digit_char_facts _ (show ms / 1000 % 3600 / 60 / 10 < 10 by omega)).2.1,
    (digit_char_facts _ (show ms / 1000 % 3600 / 60 % 10 < 10 by omega)).2.1,
    (digit_char_facts _ (show ms / 1000 % 60 / 10 < 10 by omega)).2.1,
    (digit_char_facts _ (show ms / 1000 % 60 % 10 < 10 by omega)).2.1,
    (digit_char_facts _ (show ms % 1000 / 100 < 10 by omega)).2.1,
    (digit_char_facts _ (show ms % 1000 / 10 % 10 < 10 by omega)).2.1,
    (digit_char_facts _ (show ms % 1000 % 10 < 10 by omega)).2.1]
  exact congrArg some (by omega)

/-- A list fixed by `dropWhile` has a head not satisfying the predicate. -/
theorem head_not_of_dropWhile_eq {p : Char → Bool} {l : List Char}
    (h : l.dropWhile p = l) : ∀ c ∈ l.head?, p c = false := by
  intro c hc
  cases l with
  | nil => cases hc
  | cons a t =>
    simp at hc
    subst hc
    by_contra hp
    rw [Bool.not_eq_false] at hp
    rw [List.dropWhile_cons, if_pos hp] at h
    have hle : (t.dropWhile p).length ≤ t.length :=
      (List.dropWhile_suffix p).length_le
    rw [h] at hle
    simp at hle

/-- A non-empty JavaScript-trimmed list starts and ends with
non-whitespace. -/
theorem trim_self_head_last {l : List Char} (h : JsStr.trim l = l) :
    (∀ c ∈ l.head?, JsStr.isWs c = false) ∧
    (∀ c ∈ l.getLast?, JsStr.isWs c = false) := by
  have h1 : l.dropWhile JsStr.isWs = l := by
    have hsuf : l.dropWhile JsStr.isWs <:+ l := List.dropWhile_suffix _
    apply hsuf.eq_of_length
    have hlen1 : (JsStr.trim l).length ≤ (l.dropWhile JsStr.isWs).length := by
      unfold JsStr.trim
      rw [List.length_reverse]
      calc ((l.dropWhile JsStr.isWs).reverse.dropWhile JsStr.isWs).length
          ≤ (l.dropWhile JsStr.isWs).reverse.length :=
            (List.dropWhile_suffix _).length_le
        _ = (l.dropWhile JsStr.isWs).length := List.length_reverse _
    rw [h] at hlen1
    exact Nat.le_antisymm hsuf.length_le hlen1
  have h2 : l.reverse.dropWhile JsStr.isWs = l.reverse := by
    have hsuf : l.reverse.dropWhile JsStr.isWs <:+ l.reverse := List.dropWhile_suffix _
    apply hsuf.eq_of_length
    have : JsStr.trim l = (l.reverse.dropWhile JsStr.isWs).reverse := by
      unfold JsStr.trim
      rw [h1]
    have hlen2 : l.length = (l.reverse.dropWhile JsStr.isWs).length := by
      conv_lhs => rw [← h, this]
      rw [List.length_reverse]
    rw [List.length_reverse]
    omega
  refine ⟨head_not_of_dropWhile_eq h1, ?_⟩
  intro c hc
  have := head_not_of_dropWhile_eq h2
  apply this
  rwa [List.head?_reverse]

/-- Splitting at newlines peels a newline-free prefix before an explicit
newline. -/
theorem splitNl_append_cons (a : List Char) (r : List Char)
    (ha : ∀ c ∈ a, ¬ c = '\n') :
    JsStr.splitNl (a ++ '\n' :: r) = a :: JsStr.splitNl r := by
  induction a with
  | nil => simp [JsStr.splitNl]
  | cons x t ih =>
    have hx : ¬ x = '\n' := ha x (by simp)
    simp only [List.cons_append, JsStr.splitNl, List.append_eq]
    rw [if_neg hx, ih (fun c hc => ha c (by simp [hc]))]

/-- A newline-free list splits into itself. -/
theorem splitNl_no_nl (a : List Char) (ha : ∀ c ∈ a, ¬ c = '\n') :
    JsStr.splitNl a = [a] := by
  induction a with
  | nil => rfl
  | cons x t ih =>
    have hx : ¬ x = '\n' := ha x (by simp)
    simp only [JsStr.splitNl]
    rw [if_neg hx, ih (fun c hc => ha c (by simp [hc]))]

/-- Formatted timestamps contain no newline. -/
theorem msToTime_no_nl (ms : Nat) (h : ms < 360000000) :
    ∀ ch ∈ (Server.msToTime ms).data, ¬ ch = '\n' := by
  rw [msToTime_data ms h]
  intro ch hch
  simp only [List.mem_cons, List.not_mem_nil, or_false] at hch
  rcases hch with rfl | rfl | rfl | rfl | rfl | rfl | rfl | rfl | rfl | rfl | rfl | rfl <;>
    first
      | exact (digit_char_facts _ (by omega)).2.2.2
      | decide

/-- The spec-side timing-line reader inverts the serialized timing line. -/
theorem parseTimingLine_msToTime (a b : Nat) (ha : a < 360000000)
    (hb : b < 360000000) :
    Norm.parseTimingLine
      ((Server.msToTime a).data ++ " --> ".data ++ (Server.msToTime b).data) =
      some (a, b) := by
  have hda := msToTime_data a ha
  have hdb := msToTime_data b hb
  have hAlen : (Server.msToTime a).data.length = 12 := by rw [hda]; rfl
  have hBlen : (Server.msToTime b).data.length = 12 := by rw [hdb]; rfl
  have hL : (Server.msToTime a).data ++ " --> ".data ++ (Server.msToTime b).data =
      (Server.msToTime a).data ++ (" --> ".data ++ (Server.msToTime b).data) :=
    List.append_assoc _ _ _
  have htrim : JsStr.trim
      ((Server.msToTime a).data ++ " --> ".data ++ (Server.msToTime b).data) =
      (Server.msToTime a).data ++ " --> ".data ++ (Server.msToTime b).data := by
    apply JsStr.trim_eq_self
    · intro c hc
      rw [hL, List.head?_append, hda] at hc
      simp at hc
      subst hc
      exact (digit_char_facts _ (by omega)).2.2.1
    · intro c hc
      rw [List.getLast?_append, hdb] at hc
      simp at hc
      subst hc
      exact (digit_char_facts _ (by omega)).2.2.1
  unfold Norm.parseTimingLine
  rw [htrim]
  have hdrop12 : ((Server.msToTime a).data ++ " --> ".data ++
      (Server.msToTime b).data).drop 12 =
      " --> ".data ++ (Server.msToTime b).data := by
    rw [hL]; exact List.drop_left' hAlen
  have hlen : ((Server.msToTime a).data ++ " --> ".data ++
      (Server.msToTime b).data).length = 29 := by
    simp [List.length_append, hAlen, hBlen]
  rw [if_pos ⟨hlen, by rw [hdrop12]; exact List.take_left' rfl⟩]
  have htake12 : ((Server.msToTime a).data ++ " --> ".data ++
      (Server.msToTime b).data).take 12 = (Server.msToTime a).data := by
    rw [hL]; exact List.take_left' hAlen
  have hdrop17 : ((Server.msToTime a).data ++ " --> ".data ++
      (Server.msToTime b).data).drop 17 = (Server.msToTime b).data := by
    rw [hL, show (17 : Nat) = 12 + 5 from rfl, ← List.drop_drop,
      List.drop_left' hAlen]
    exact List.drop_left' rfl
  rw [htake12, hdrop17, timeVal_msToTime a ha, timeVal_msToTime b hb]

/-- A trimmed text within the limit passes through the truncation. -/
theorem truncate_eq_self (text : String) (hne : text ≠ "")
    (htr : JsStr.trim text.data = text.data) (hlen : text.data.length ≤ 40) :
    Server.truncateSubtitleText text 40 = text := by
  unfold Server.truncateSubtitleText
  rw [if_neg hne, htr, if_pos hlen]

/-- The character list of a good text is non-empty. -/
theorem goodCue_text_ne_nil {c : Cue} (h : goodCue c) : c.text.data ≠ [] := by
  intro hd
  exact h.2.2.1 (show c.text = "" by
    conv_lhs => rw [show c.text = String.mk c.text.data from rfl, hd])

/-- Block contributed by a good entry. -/
theorem cueBlock_good (c : Cue) (h : goodCue c) :
    Server.cueBlock c =
      ((Server.msToTime c.startMs).data ++ " --> ".data ++
        (Server.msToTime (c.startMs + c.durationMs)).data) ++
      '\n' :: (c.text.data ++ "\n\n".data) := by
  obtain ⟨h0, hlt, hne, htr, hlen, hnl, hcl, hval⟩ := h
  unfold Server.cueBlock
  rw [if_pos ⟨hne, by
    rw [htr]
    exact goodCue_text_ne_nil ⟨h0, hlt, hne, htr, hlen, hnl, hcl, hval⟩⟩]
  unfold Server.cueStartStr Server.cueEndStr
  rw [if_pos h0, if_pos h0, truncate_eq_self c.text hne htr hlen]
  simp [List.append_assoc]

/-- The scanner returns nothing on an empty line list. -/
theorem parseLinesGo_nil : ∀ fuel : Nat, Norm.parseLinesGo fuel [] = [] := by
  intro fuel; cases fuel <;> rfl

/-- The scanner skips a line that is not a timing line. -/
theorem parseLinesGo_skip (fuel : Nat) (l : List Char) (rest : List (List Char))
    (hnone : Norm.parseTimingLine l = none) :
    Norm.parseLinesGo (fuel + 1) (l :: rest) = Norm.parseLinesGo fuel rest := by
  simp [Norm.parseLinesGo, hnone]

/-- Appending folds of the serializer accumulate left of the initial value. -/
theorem foldl_append_flatten (f : Cue → List Char) (subs : List Cue) :
    ∀ init : List Char,
      subs.foldl (fun acc sub => acc ++ f sub) init =
        init ++ (subs.map f).flatten := by
  induction subs with
  | nil => intro init; simp
  | cons c rest ih =>
    intro init
    simp only [List.foldl_cons, List.map_cons, List.flatten_cons, ih,
      List.append_assoc]

/-- One scanner step on a timing line: collect the following non-blank
lines, clean them, and continue after the blank separator, keeping the cue
exactly when the cleaned text has a valid character. -/
theorem parseLinesGo_cue (fuel : Nat) (l : List Char) (rest : List (List Char))
    (p : Nat × Nat) (hsome : Norm.parseTimingLine l = some p) :
    Norm.parseLinesGo (fuel + 1) (l :: rest) =
      (if (Norm.cleanupText (JsStr.joinNl
            (rest.takeWhile (fun m => ! (JsStr.trim m).isEmpty)))).any
            SubDl.isValidCueChar then
        (⟨p.1, p.2, String.mk (Norm.cleanupText (JsStr.joinNl
            (rest.takeWhile (fun m => ! (JsStr.trim m).isEmpty))))⟩ : PCue) ::
          Norm.parseLinesGo fuel
            ((rest.dropWhile (fun m => ! (JsStr.trim m).isEmpty)).drop 1)
      else
        Norm.parseLinesGo fuel
          ((rest.dropWhile (fun m => ! (JsStr.trim m).isEmpty)).drop 1)) := by
  simp [Norm.parseLinesGo, hsome]

/-- Serialized blocks of a list of good entries: overall shape of the body,
its edge characters, and the result of the spec-side scan of its lines. -/
theorem parse_blocks (subs : List Cue) :
    subs ≠ [] → (∀ c ∈ subs, goodCue c) →
    ∃ core : List Char,
      (subs.map Server.cueBlock).flatten = core ++ "\n\n".data ∧
      core ≠ [] ∧
      (∀ ch ∈ core.head?, JsStr.isWs ch = false) ∧
      (∀ ch ∈ core.getLast?, JsStr.isWs ch = false) ∧
      (∀ fuel : Nat, (JsStr.splitNl core).length ≤ fuel →
        Norm.parseLinesGo fuel (JsStr.splitNl core) = subs.map toPCue) := by
  induction subs with
  | nil => intro hne _; exact absurd rfl hne
  | cons c rest ih =>
    intro _ hgood
    have hc : goodCue c := hgood c (by simp)
    obtain ⟨h0, hlt, hnec, htr, hlen40, hnl, hcl, hval⟩ := hc
    have hc2 : goodCue c := ⟨h0, hlt, hnec, htr, hlen40, hnl, hcl, hval⟩
    have hblock := cueBlock_good c hc2
    have htne : c.text.data ≠ [] := goodCue_text_ne_nil hc2
    have hsa : c.startMs < 360000000 := by omega
    have hTnonl : ∀ ch ∈ ((Server.msToTime c.startMs).data ++ " --> ".data ++
        (Server.msToTime (c.startMs + c.durationMs)).data), ¬ ch = '\n' := by
      intro ch hch
      simp only [List.mem_append] at hch
      rcases hch with (hch | hch) | hch
      · exact msToTime_no_nl _ hsa ch hch
      · exact (by decide : ∀ x ∈ (" --> ".data : List Char), ¬ x = '\n') ch hch
      · exact msToTime_no_nl _ hlt ch hch
    have hThead : ((Server.msToTime c.startMs).data ++ " --> ".data ++
        (Server.msToTime (c.startMs + c.durationMs)).data).head? =
        some (Char.ofNat (48 + c.startMs / 1000 / 3600 / 10)) := by
      rw [List.append_assoc, List.head?_append, msToTime_data _ hsa]
      rfl
    have hTP := parseTimingLine_msToTime c.startMs (c.startMs + c.durationMs) hsa hlt
    have hEmpF : c.text.data.isEmpty = false := by
      cases hl : c.text.data with
      | nil => exact absurd hl htne
      | cons a t => rfl
    have htll := trim_self_head_last htr
    have heta : String.mk c.text.data = c.text := rfl
    cases rest with
    | nil =>
      refine ⟨((Server.msToTime c.startMs).data ++ " --> ".data ++
        (Server.msToTime (c.startMs + c.durationMs)).data) ++
        '\n' :: c.text.data, ?_, by simp, ?_, ?_, ?_⟩
      · simp only [List.map_cons, List.map_nil, List.flatten_cons,
          List.flatten_nil, List.append_nil, hblock]
        simp [List.append_assoc]
      · intro ch hch
        rw [List.head?_append, hThead] at hch
        simp at hch
        subst hch
        exact (digit_char_facts _ (by omega)).2.2.1
      · intro ch hch
        rw [show ((Server.msToTime c.startMs).data ++ " --> ".data ++
            (Server.msToTime (c.startMs + c.durationMs)).data) ++
            '\n' :: c.text.data =
            (((Server.msToTime c.startMs).data ++ " --> ".data ++
              (Server.msToTime (c.startMs + c.durationMs)).data) ++ ['\n']) ++
            c.text.data from by simp, List.getLast?_append] at hch
        have hy : c.text.data.getLast?.isSome := List.getLast?_isSome.mpr htne
        obtain ⟨y, hy⟩ := Option.isSome_iff_exists.mp hy
        rw [hy] at hch
        simp at hch
        subst hch
        exact htll.2 y hy
      · intro fuel hfuel
        rw [splitNl_append_cons _ _ hTnonl, splitNl_no_nl _ hnl] at hfuel ⊢
        cases fuel with
        | zero => simp at hfuel
        | succ f =>
          rw [parseLinesGo_cue f _ _ _ hTP]
          simp [List.takeWhile_cons, List.dropWhile_cons, htr, hEmpF, hcl,
            hval, JsStr.joinNl, parseLinesGo_nil, toPCue, heta,
            show JsStr.trim ([] : List Char) = [] from rfl]
    | cons c2 rest2 =>
      obtain ⟨core2, hfl2, hne2, hhead2, hlast2, hparse2⟩ :=
        ih (by simp) (fun x hx => hgood x (by simp [hx]))
      refine ⟨((Server.msToTime c.startMs).data ++ " --> ".data ++
        (Server.msToTime (c.startMs + c.durationMs)).data) ++
        '\n' :: (c.text.data ++ '\n' :: ('\n' :: core2)), ?_, by simp, ?_, ?_, ?_⟩
      · rw [List.map_cons, List.flatten_cons, hblock, hfl2]
        simp [List.append_assoc, show ("\n\n".data : List Char) = ['\n', '\n']
          from rfl]
      · intro ch hch
        rw [List.head?_append, hThead] at hch
        simp at hch
        subst hch
        exact (digit_char_facts _ (by omega)).2.2.1
      · intro ch hch
        rw [show ((Server.msToTime c.startMs).data ++ " --> ".data ++
            (Server.msToTime (c.startMs + c.durationMs)).data) ++
            '\n' :: (c.text.data ++ '\n' :: ('\n' :: core2)) =
            (((Server.msToTime c.startMs).data ++ " --> ".data ++
              (Server.msToTime (c.startMs + c.durationMs)).data) ++
              '\n' :: (c.text.data ++ ['\n', '\n'])) ++ core2 from by
              simp [List.append_assoc], List.getLast?_append] at hch
        have hy : core2.getLast?.isSome := List.getLast?_isSome.mpr hne2
        obtain ⟨y, hy⟩ := Option.isSome_iff_exists.mp hy
        rw [hy] at hch
        simp at hch
        subst hch
        exact hlast2 y hy
      · intro fuel hfuel
        have hnlsplit : JsStr.splitNl ('\n' :: core2) = [] :: JsStr.splitNl core2 := by
          simp [JsStr.splitNl]
        rw [splitNl_append_cons _ _ hTnonl, splitNl_append_cons _ _ hnl,
          hnlsplit] at hfuel ⊢
        cases fuel with
        | zero => simp at hfuel
        | succ f =>
          rw [parseLinesGo_cue f _ _ _ hTP]
          have hfle : (JsStr.splitNl core2).length ≤ f := by
            simp only [List.length_cons] at hfuel
            omega
          simp [List.takeWhile_cons, List.dropWhile_cons, htr, hEmpF, hcl,
            hval, JsStr.joinNl, toPCue, heta, hparse2 f hfle,
            show JsStr.trim ([] : List Char) = [] from rfl]

/-- C2: corrected round-trip property of the VTT serializer.  The claim as
stated is false for the server serializer, which truncates cue text at 40
characters (counterexample), so equality of the re-parsed cue list only
holds under restrictions the claim does not state: every entry has a truthy
(non-zero) start, times below the 100-hour field limit, and non-empty,
trimmed, newline-free text of at most 40 characters.  Under these
hypotheses serializing a non-empty entry list and re-parsing the produced
VTT yields exactly the entries: same count, text unchanged, and start/end
offsets equal to the millisecond. -/
theorem c2_vtt_round_trip (subs : List Cue) (hne : subs ≠ [])
    (hgood : ∀ c ∈ subs, goodCue c) :
    ∃ out : String, Server.arrayToVtt subs = some out ∧
      Norm.parseVtt out = subs.map toPCue := by
  obtain ⟨core, hfl, hcne, hhead, hlast, hparse⟩ := parse_blocks subs hne hgood
  have hvtt : subs.foldl (fun acc sub => acc ++ Server.cueBlock sub)
      "WEBVTT\n\n".data = "WEBVTT\n\n".data ++ (core ++ "\n\n".data) := by
    rw [foldl_append_flatten, hfl]
  have htrimv : JsStr.trim ("WEBVTT\n\n".data ++ (core ++ "\n\n".data)) =
      "WEBVTT\n\n".data ++ core := by
    rw [show "WEBVTT\n\n".data ++ (core ++ "\n\n".data) =
      ("WEBVTT\n\n".data ++ core) ++ "\n\n".data from by simp [List.append_assoc]]
    apply JsStr.trim_append_ws
    · decide
    · intro ch hch
      rw [List.head?_append,
        show ("WEBVTT\n\n".data : List Char).head? = some 'W' from rfl] at hch
      simp at hch
      subst hch
      decide
    · intro ch hch
      rw [List.getLast?_append] at hch
      obtain ⟨y, hy⟩ := Option.isSome_iff_exists.mp (List.getLast?_isSome.mpr hcne)
      rw [hy] at hch
      simp at hch
      subst hch
      exact hlast y hy
    · simp
  have hneW : ¬ (JsStr.trim ("WEBVTT\n\n".data ++ (core ++ "\n\n".data)) =
      "WEBVTT".data) := by
    rw [htrimv]
    intro heq
    have hlen := congrArg List.length heq
    simp [List.length_append] at hlen
  refine ⟨String.mk ("WEBVTT\n\n".data ++ core), ?_, ?_⟩
  · unfold Server.arrayToVtt
    rw [if_neg hne, hvtt]
    show (if JsStr.trim ("WEBVTT\n\n".data ++ (core ++ "\n\n".data)) =
        "WEBVTT".data then none
      else some (String.mk (JsStr.trim
        ("WEBVTT\n\n".data ++ (core ++ "\n\n".data))))) =
      some (String.mk ("WEBVTT\n\n".data ++ core))
    rw [if_neg hneW, htrimv]
  · unfold Norm.parseVtt
    rw [show (String.mk ("WEBVTT\n\n".data ++ core)).data =
      "WEBVTT\n\n".data ++ core from rfl]
    have hWnl : ∀ ch ∈ ("WEBVTT".data : List Char), ¬ ch = '\n' := by decide
    have hsplitW : JsStr.splitNl ("WEBVTT\n\n".data ++ core) =
        "WEBVTT".data :: [] :: JsStr.splitNl core := by
      rw [show ("WEBVTT\n\n".data ++ core : List Char) =
        "WEBVTT".data ++ '\n' :: ('\n' :: core) from rfl,
        splitNl_append_cons _ _ hWnl]
      congr 1
    rw [hsplitW,
      show ("WEBVTT".data :: [] :: JsStr.splitNl core).length =
        ((JsStr.splitNl core).length + 1) + 1 from by simp,
      parseLinesGo_skip _ _ _ (by decide),
      parseLinesGo_skip _ _ _ (by decide)]
    exact hparse _ le_rfl

theorem c2_vtt_round_trip_witness :
    ∃ out : String,
      Server.arrayToVtt [⟨1000, 1500, "Hello world"⟩] = some out ∧
      Norm.parseVtt out = List.map toPCue [⟨1000, 1500, "Hello world"⟩] :=
  c2_vtt_round_trip [⟨1000, 1500, "Hello world"⟩] (by decide) (by decide)

/-- C2 counterexample: a single cue whose text is fifty letters is
serialized with its text cut to the first forty characters, so re-parsing
the produced VTT does not return the original text. -/
theorem c2_counterexample :
    ∃ out : String,
      Server.arrayToVtt [⟨1000, 1000, String.mk (List.replicate 50 'a')⟩] =
        some out ∧
      Norm.parseVtt out = [⟨1000, 2000, String.mk (List.replicate 40 'a')⟩] ∧
      String.mk (List.replicate 40 'a') ≠ String.mk (List.replicate 50 'a') :=
  ⟨String.mk ("WEBVTT\n\n00:00:01.000 --> 00:00:02.000\n".data ++
      List.replicate 40 'a'),
   by decide, by decide, by decide⟩
